import Mathlib

/-!
# Verification of the `gsap-spa-manager` AnimationManager

Shallow embedding of the `AnimationManager` class
(`packages/gsap-spa-manager`, the class listing in the package README).

Modelling choices:

* GSAP tweens/timelines and ScrollTrigger instances are opaque handles
  exposing a `kill()` capability.  A `Handle` carries an identity `id`
  and a flag `killThrows` saying whether its `kill()` throws when
  invoked.  A successful `kill()` is recorded by appending the handle's
  id to `killedLog` and removing the handle from the trigger engine's
  global registry (`globalTriggers`, GSAP's `ScrollTrigger.getAll()`
  set, from which a killed trigger disappears).  A throwing `kill()`
  performs no state change and signals the exception.
* JavaScript exceptions are modelled by returning `Bool × ManagerState`:
  the boolean is `true` when the operation ran to completion and `false`
  when an uncaught exception propagated out of it; the state component
  is the manager state at the moment the exception escaped (mutations
  performed before the throw persist, exactly as in JS).
* `Map` and `Set` are insertion-ordered association lists / lists, with
  `set`/`add`/`delete` translated from the JS semantics.
* `gsap.context(fn, scope)` is opaque: a `Ctx` value stands for the
  context object built by running the setup function; `revert()` is
  recorded in `revertedLog`.  DOM scoping has no registry-visible
  effect and is not modelled.
* Console logging (`log`, `trace`, `debug`) has no registry-visible
  effect and is not modelled.
-/

/-- An opaque GSAP handle (Tween, Timeline or ScrollTrigger): an identity
plus whether its `kill()` throws when invoked. -/
structure Handle where
  id : Nat
  killThrows : Bool
deriving DecidableEq, Repr

/-- An opaque `gsap.context()` object, identified by an id; `revert()` is
recorded in the state's `revertedLog`. -/
structure Ctx where
  id : Nat
deriving DecidableEq, Repr

/-- The full state of the `AnimationManager` singleton together with the
observable effects on the external engines.  The first five fields are the
five private fields of the class; `globalTriggers` is the trigger engine's
`ScrollTrigger.getAll()` registry; the three logs record the externally
observable calls (`kill()` successes, `revert()`s, `refresh()`es). -/
structure ManagerState where
  activeAnimations : List (String × List Handle)
  scrollTriggers : List (String × List Handle)
  contexts : List (String × Ctx)
  persistentAnimations : List String
  persistentScrollTriggers : List String
  globalTriggers : List Handle
  killedLog : List Nat
  revertedLog : List String
  refreshedLog : List Nat
deriving DecidableEq, Repr

/-- The manager state with nothing registered (fresh page load). -/
def emptyState : ManagerState :=
  { activeAnimations := []
    scrollTriggers := []
    contexts := []
    persistentAnimations := []
    persistentScrollTriggers := []
    globalTriggers := []
    killedLog := []
    revertedLog := []
    refreshedLog := [] }

/-- `AnimationOptions` of the source: the `persist` flag. -/
structure AnimationOptions where
  persist : Bool := false
deriving DecidableEq, Repr

/-- `SetupOptions` of the source: the `persist` flag (the `scope` option
only affects DOM selector scoping, which has no registry-visible effect). -/
structure SetupOptions where
  persist : Bool := false
deriving DecidableEq, Repr

/-- The union argument type `Tween | Timeline | (Tween | Timeline)[]`
accepted by `register` and `animate`. -/
inductive AnimArg where
  | single (h : Handle)
  | many (hs : List Handle)
deriving DecidableEq, Repr

namespace AnimArg

/-- `Array.isArray(animation) ? animation : [animation]`. -/
def toList : AnimArg → List Handle
  | .single h => [h]
  | .many hs => hs

/-- `Array.isArray(animationFactory) ? animationFactory[0] : animationFactory`
(`[0]` of an empty array is `undefined`, i.e. `none`). -/
def first : AnimArg → Option Handle
  | .single h => some h
  | .many hs => hs.head?

end AnimArg

/-! ## JS `Map` / `Set` primitives (insertion-ordered association lists) -/

/-- `Map.has(k)`. -/
def mapHas (m : List (String × α)) (k : String) : Bool :=
  m.any (fun p => p.1 == k)

/-- `Map.get(k)` (`undefined` is `none`). -/
def mapGet (m : List (String × α)) (k : String) : Option α :=
  (m.find? (fun p => p.1 == k)).map (fun p => p.2)

/-- `Map.set(k, v)`: update in place when present, append when absent. -/
def mapSet (m : List (String × α)) (k : String) (v : α) : List (String × α) :=
  if mapHas m k then m.map (fun p => if p.1 == k then (k, v) else p)
  else m ++ [(k, v)]

/-- `Map.delete(k)`. -/
def mapDelete (m : List (String × α)) (k : String) : List (String × α) :=
  m.filter (fun p => p.1 != k)

/-- `Map.keys()` in insertion order. -/
def mapKeys (m : List (String × α)) : List String :=
  m.map (fun p => p.1)

/-- `Set.add(k)`: append when absent. -/
def setAdd (s : List String) (k : String) : List String :=
  if s.contains k then s else s ++ [k]

/-- `Set.delete(k)`. -/
def setDelete (s : List String) (k : String) : List String :=
  s.filter (fun x => x != k)

/-! ## The kill primitives -/

/-- One `handle.kill()` call.  On success the handle's id is logged and the
handle leaves the trigger engine's global registry; a throwing `kill()`
changes nothing and reports the exception (`false`). -/
def killHandle (h : Handle) (s : ManagerState) : Bool × ManagerState :=
  if h.killThrows then (false, s)
  else
    (true,
      { s with
        globalTriggers := s.globalTriggers.filter (fun t => t.id != h.id)
        killedLog := s.killedLog ++ [h.id] })

/-- `killAnimations`: kills each handle of the list, each call wrapped in
`try/catch` (a throwing `kill()` is caught and the loop continues), so the
helper itself never throws.  The source's `filter(Boolean)` and empty-array
early returns are identity on the modelled (non-nullable) lists. -/
def killAnimations (hs : List Handle) (s : ManagerState) : ManagerState :=
  match hs with
  | [] => s
  | h :: t => killAnimations t (killHandle h s).2

/-- `killScrollTriggers`: `triggers.forEach((trigger) => trigger.kill())`,
with no `try/catch` — the first throwing `kill()` escapes and the remaining
handles are not visited. -/
def killScrollTriggers (hs : List Handle) (s : ManagerState) : Bool × ManagerState :=
  match hs with
  | [] => (true, s)
  | h :: t =>
    let r := killHandle h s
    if r.1 then killScrollTriggers t r.2 else (false, r.2)

/-! ## Public queries -/

/-- `isPersistent`. -/
def isPersistent (key : String) (s : ManagerState) : Bool :=
  s.persistentAnimations.contains key || s.persistentScrollTriggers.contains key

/-- `isActive`. -/
def isActive (key : String) (s : ManagerState) : Bool :=
  mapHas s.activeAnimations key || mapHas s.scrollTriggers key || mapHas s.contexts key

/-- The record returned by `getStatus`. -/
structure ManagerStatus where
  animations : Nat
  scrollTriggers : Nat
  persistent : Nat
  keys : List String
  persistentKeys : List String
deriving DecidableEq, Repr

/-- `getStatus`. -/
def getStatus (s : ManagerState) : ManagerStatus :=
  { animations := s.activeAnimations.length
    scrollTriggers := s.scrollTriggers.foldl (fun total p => total + p.2.length) 0
    persistent := s.persistentAnimations.length + s.persistentScrollTriggers.length
    keys := mapKeys s.activeAnimations ++ mapKeys s.scrollTriggers ++ mapKeys s.contexts
    persistentKeys := s.persistentAnimations ++ s.persistentScrollTriggers }

/-! ## Registration operations -/

/-- `register`. -/
def register (key : String) (animation : AnimArg) (options : AnimationOptions)
    (s : ManagerState) : ManagerState :=
  if !mapHas s.activeAnimations key && !mapHas s.contexts key then
    if options.persist then
      { s with
        activeAnimations := mapSet s.activeAnimations key animation.toList
        persistentAnimations := setAdd s.persistentAnimations key }
    else { s with activeAnimations := mapSet s.activeAnimations key animation.toList }
  else s

/-- `registerScrollTriggers`. -/
def registerScrollTriggers (key : String) (triggers : List Handle)
    (options : AnimationOptions) (s : ManagerState) : ManagerState :=
  if !mapHas s.scrollTriggers key then
    if options.persist then
      { s with
        scrollTriggers := mapSet s.scrollTriggers key triggers
        persistentScrollTriggers := setAdd s.persistentScrollTriggers key }
    else { s with scrollTriggers := mapSet s.scrollTriggers key triggers }
  else s

/-- `animate`: delegates to `register` and returns the first handle of the
argument (in registration order), `none` when an empty array was passed. -/
def animate (key : String) (animationFactory : AnimArg) (options : AnimationOptions)
    (s : ManagerState) : Option Handle × ManagerState :=
  (animationFactory.first, register key animationFactory options s)

/-- The placeholder animation entry `{ kill: () => {} }` stored by `setup`:
an inert handle whose `kill()` is a no-op (and in particular never throws). -/
def placeholderHandle : Handle :=
  { id := 0, killThrows := false }

/-- `setup`.  The boolean result records whether the setup function was
invoked (i.e. a `gsap.context` was opened); `ctx` stands for the context
object that `gsap.context(setupFunction, scope)` would build. -/
def setup (key : String) (ctx : Ctx) (options : SetupOptions)
    (s : ManagerState) : Bool × ManagerState :=
  if !mapHas s.activeAnimations key && !mapHas s.contexts key then
    (true,
      if options.persist then
        { s with
          contexts := mapSet s.contexts key ctx
          activeAnimations := mapSet s.activeAnimations key [placeholderHandle]
          persistentAnimations := setAdd s.persistentAnimations key }
      else
        { s with
          contexts := mapSet s.contexts key ctx
          activeAnimations := mapSet s.activeAnimations key [placeholderHandle] })
  else (false, s)

/-- `timeline`: builds a timeline from the vars (the constructed handle is
the parameter `tl`) and delegates to `animate`. -/
def timeline (key : String) (tl : Handle) (options : AnimationOptions)
    (s : ManagerState) : Option Handle × ManagerState :=
  animate key (.single tl) options s

/-- `scroll`.  `trigger` stands for the handle `ScrollTrigger.create(vars)`
would construct; construction also enters it into the engine's global
registry.  On an occupied key nothing is constructed and `null` is
returned. -/
def scroll (key : String) (trigger : Handle) (options : AnimationOptions)
    (s : ManagerState) : Option Handle × ManagerState :=
  if mapHas s.scrollTriggers key then (none, s)
  else
    (some trigger,
      registerScrollTriggers key [trigger] options
        { s with globalTriggers := s.globalTriggers ++ [trigger] })

/-! ## Cleanup operations -/

/-- `removePersistence`: unmark in both sets. -/
def removePersistence (key : String) (s : ManagerState) : ManagerState :=
  { s with
    persistentAnimations := setDelete s.persistentAnimations key
    persistentScrollTriggers := setDelete s.persistentScrollTriggers key }

/-- `cleanupScrollTriggers` (private helper of `cleanup`). -/
def cleanupScrollTriggers (key : String) (force : Bool) (s : ManagerState) :
    Bool × ManagerState :=
  if !force && s.persistentScrollTriggers.contains key then (true, s)
  else
    match mapGet s.scrollTriggers key with
    | none => (true, s)
    | some triggers =>
      if (killScrollTriggers triggers s).1 then
        (true,
          { (killScrollTriggers triggers s).2 with
            scrollTriggers := mapDelete ((killScrollTriggers triggers s).2).scrollTriggers key })
      else (false, (killScrollTriggers triggers s).2)

/-- The context statements of `cleanup`: revert the context for `key` if
present and remove it. -/
def cleanupCtxPart (key : String) (s : ManagerState) : ManagerState :=
  match mapGet s.contexts key with
  | some _ =>
    { s with
      contexts := mapDelete s.contexts key
      revertedLog := s.revertedLog ++ [key] }
  | none => s

/-- The animation statements of `cleanup`: kill the animation handles for
`key` if present and remove the entry. -/
def cleanupAnimPart (key : String) (s : ManagerState) : ManagerState :=
  match mapGet s.activeAnimations key with
  | some animations =>
    { killAnimations animations s with
      activeAnimations := mapDelete (killAnimations animations s).activeAnimations key }
  | none => s

/-- `cleanup`. -/
def cleanup (key : String) (force : Bool) (s : ManagerState) : Bool × ManagerState :=
  if !force && isPersistent key s then (true, s)
  else
    if (cleanupScrollTriggers key force (cleanupAnimPart key (cleanupCtxPart key s))).1 then
      (true,
        if force then
          removePersistence key
            ((cleanupScrollTriggers key force (cleanupAnimPart key (cleanupCtxPart key s))).2)
        else (cleanupScrollTriggers key force (cleanupAnimPart key (cleanupCtxPart key s))).2)
    else (false, (cleanupScrollTriggers key force (cleanupAnimPart key (cleanupCtxPart key s))).2)

/-- The context sweep of `cleanupAll`: revert and delete each key of the
precomputed list. -/
def revertCtxKeys (keys : List String) (s : ManagerState) : ManagerState :=
  match keys with
  | [] => s
  | k :: rest =>
    let s1 :=
      match mapGet s.contexts k with
      | some _ => { s with revertedLog := s.revertedLog ++ [k] }
      | none => s
    revertCtxKeys rest { s1 with contexts := mapDelete s1.contexts k }

/-- The animation sweep of `cleanupAll`: kill and delete each key of the
precomputed list (`killAnimations` never throws). -/
def killAnimKeys (keys : List String) (s : ManagerState) : ManagerState :=
  match keys with
  | [] => s
  | k :: rest =>
    let s1 :=
      match mapGet s.activeAnimations k with
      | some animations => killAnimations animations s
      | none => s
    killAnimKeys rest { s1 with activeAnimations := mapDelete s1.activeAnimations k }

/-- The trigger sweep of `cleanupAll`: kill and delete each key of the
precomputed list; a throwing `kill()` escapes, skipping that key's delete
and the rest of the sweep. -/
def killTrigKeys (keys : List String) (s : ManagerState) : Bool × ManagerState :=
  match keys with
  | [] => (true, s)
  | k :: rest =>
    match mapGet s.scrollTriggers k with
    | some triggers =>
      let r := killScrollTriggers triggers s
      if r.1 then
        killTrigKeys rest { r.2 with scrollTriggers := mapDelete r.2.scrollTriggers k }
      else (false, r.2)
    | none => killTrigKeys rest { s with scrollTriggers := mapDelete s.scrollTriggers k }

/-- The identities of the handles stored under the persistent trigger keys:
the `persistentSet` built by `cleanupAll`'s global reconciliation
(`Set.has` on objects is identity-based, i.e. id-based here). -/
def persistentTriggerIds (s : ManagerState) : List Nat :=
  s.persistentScrollTriggers.foldl
    (fun acc k =>
      match mapGet s.scrollTriggers k with
      | some triggers => acc ++ triggers.map (fun t => t.id)
      | none => acc)
    []

/-- The context sweep of `cleanupAll`: compute the non-persistent context
keys, then revert and remove each. -/
def cleanupAllCtxSweep (s : ManagerState) : ManagerState :=
  revertCtxKeys ((mapKeys s.contexts).filter (fun k => !s.persistentAnimations.contains k)) s

/-- The animation sweep of `cleanupAll`: compute the non-persistent
animation keys, then kill and remove each. -/
def cleanupAllAnimSweep (s : ManagerState) : ManagerState :=
  killAnimKeys ((mapKeys s.activeAnimations).filter (fun k => !s.persistentAnimations.contains k)) s

/-- The trigger sweep of `cleanupAll`: compute the non-persistent trigger
keys, then kill and remove each (uncaught `kill()` failures escape). -/
def cleanupAllTrigSweep (s : ManagerState) : Bool × ManagerState :=
  killTrigKeys
    ((mapKeys s.scrollTriggers).filter (fun k => !s.persistentScrollTriggers.contains k)) s

/-- The global reconciliation of `cleanupAll` against `ScrollTrigger.getAll()`:
if any trigger keys are persistent, kill every globally registered trigger
not belonging to them; otherwise kill the whole global set. -/
def globalTriggerReconcile (s : ManagerState) : Bool × ManagerState :=
  if s.persistentScrollTriggers.isEmpty then killScrollTriggers s.globalTriggers s
  else
    killScrollTriggers
      (s.globalTriggers.filter (fun t => !(persistentTriggerIds s).contains t.id)) s

/-- `cleanupAll`. -/
def cleanupAll (s : ManagerState) : Bool × ManagerState :=
  if (cleanupAllTrigSweep (cleanupAllAnimSweep (cleanupAllCtxSweep s))).1 then
    globalTriggerReconcile ((cleanupAllTrigSweep (cleanupAllAnimSweep (cleanupAllCtxSweep s))).2)
  else (false, (cleanupAllTrigSweep (cleanupAllAnimSweep (cleanupAllCtxSweep s))).2)

/-- `contexts.forEach((ctx) => ctx.revert())` in `forceCleanupAll`. -/
def revertAllCtx (l : List (String × Ctx)) (s : ManagerState) : ManagerState :=
  match l with
  | [] => s
  | (k, _) :: rest => revertAllCtx rest { s with revertedLog := s.revertedLog ++ [k] }

/-- `activeAnimations.forEach((animations) => killAnimations(animations))`
in `forceCleanupAll` (never throws). -/
def killAllAnimGroups (l : List (String × List Handle)) (s : ManagerState) : ManagerState :=
  match l with
  | [] => s
  | (_, hs) :: rest => killAllAnimGroups rest (killAnimations hs s)

/-- `scrollTriggers.forEach((triggers) => killScrollTriggers(triggers))`
in `forceCleanupAll`; a throwing `kill()` aborts the iteration. -/
def killAllTrigGroups (l : List (String × List Handle)) (s : ManagerState) :
    Bool × ManagerState :=
  match l with
  | [] => (true, s)
  | (_, hs) :: rest =>
    let r := killScrollTriggers hs s
    if r.1 then killAllTrigGroups rest r.2 else (false, r.2)

/-- `forceCleanupAll`, statements 1-2: `contexts.forEach(revert)` then
`contexts.clear()`. -/
def forceStage1 (s : ManagerState) : ManagerState :=
  { revertAllCtx s.contexts s with contexts := [] }

/-- `forceCleanupAll`, statements 3-4: `activeAnimations.forEach(kill)` then
`activeAnimations.clear()`. -/
def forceStage2 (s : ManagerState) : ManagerState :=
  { killAllAnimGroups s.activeAnimations s with activeAnimations := [] }

/-- `forceCleanupAll`, statements 6-8 (after the trigger-group kills
succeeded): `scrollTriggers.clear()` and both persistence-set `clear()`s. -/
def forceStage3 (s : ManagerState) : ManagerState :=
  { s with
    scrollTriggers := []
    persistentAnimations := []
    persistentScrollTriggers := [] }

/-- `forceCleanupAll`. -/
def forceCleanupAll (s : ManagerState) : Bool × ManagerState :=
  if (killAllTrigGroups (forceStage2 (forceStage1 s)).scrollTriggers (forceStage2 (forceStage1 s))).1 then
    killScrollTriggers
      ((forceStage3 ((killAllTrigGroups (forceStage2 (forceStage1 s)).scrollTriggers
        (forceStage2 (forceStage1 s))).2)).globalTriggers)
      (forceStage3 ((killAllTrigGroups (forceStage2 (forceStage1 s)).scrollTriggers
        (forceStage2 (forceStage1 s))).2))
  else
    (false, (killAllTrigGroups (forceStage2 (forceStage1 s)).scrollTriggers
      (forceStage2 (forceStage1 s))).2)

/-! ## Adapter reactions and refresh -/

/-- The before-swap reaction installed by `setupAdapterHooks`: compute
`hasNonPersistentAnimations`, `hasNonPersistentScrollTriggers` and
`hasNonPersistentContexts`; skip the sweep when none holds, otherwise run
`cleanupAll`. -/
def beforeSwap (s : ManagerState) : Bool × ManagerState :=
  if !((mapKeys s.activeAnimations).any (fun k => !s.persistentAnimations.contains k)) &&
      !((mapKeys s.scrollTriggers).any (fun k => !s.persistentScrollTriggers.contains k)) &&
      !((mapKeys s.contexts).any (fun k => !s.persistentAnimations.contains k)) then
    (true, s)
  else cleanupAll s

/-- `refresh`: `none` is the global hard refresh (`ScrollTrigger.refresh(true)`,
touching every globally registered trigger); a key list refreshes the stored
handles of each present key and ignores absent keys. -/
def refresh (keys : Option (List String)) (s : ManagerState) : ManagerState :=
  match keys with
  | none => { s with refreshedLog := s.refreshedLog ++ s.globalTriggers.map (fun t => t.id) }
  | some ks =>
    ks.foldl
      (fun acc k =>
        match mapGet acc.scrollTriggers k with
        | some triggers =>
          { acc with refreshedLog := acc.refreshedLog ++ triggers.map (fun t => t.id) }
        | none => acc)
      s

/-! ## Basic lemmas on the Map/Set primitives -/

theorem mapHas_iff_mem_keys (m : List (String × α)) (k : String) :
    mapHas m k = true ↔ k ∈ mapKeys m := by
  simp [mapHas, mapKeys, List.any_eq_true, List.mem_map]

theorem mapHas_iff_exists (m : List (String × α)) (k : String) :
    mapHas m k = true ↔ ∃ v, (k, v) ∈ m := by
  simp only [mapHas, List.any_eq_true, beq_iff_eq]
  constructor
  · rintro ⟨p, hp, rfl⟩
    exact ⟨p.2, hp⟩
  · rintro ⟨v, hv⟩
    exact ⟨(k, v), hv, rfl⟩

theorem mapGet_eq_none_of_not_has (m : List (String × α)) (k : String)
    (h : mapHas m k = false) : mapGet m k = none := by
  unfold mapGet
  rw [List.find?_eq_none.mpr]
  · rfl
  · intro p hp
    simp only [mapHas, List.any_eq_false] at h
    simpa using h p hp

theorem mapHas_of_mapGet_eq_some (m : List (String × α)) (k : String) (v : α)
    (h : mapGet m k = some v) : mapHas m k = true := by
  by_contra hc
  rw [mapGet_eq_none_of_not_has m k (by simpa using hc)] at h
  exact Option.noConfusion h

theorem mapHas_mapSet_self (m : List (String × α)) (k : String) (v : α) :
    mapHas (mapSet m k v) k = true := by
  unfold mapSet
  by_cases h : mapHas m k = true
  · simp only [h, if_true]
    rcases (List.any_eq_true).mp h with ⟨p, hp, he⟩
    refine (List.any_eq_true).mpr ⟨(k, v), List.mem_map.mpr ⟨p, hp, ?_⟩, by simp⟩
    simp [he]
  · rw [if_neg h]
    simp only [mapHas, List.any_eq_true]
    exact ⟨(k, v), by simp, by simp⟩

theorem mapGet_mapSet_of_not_has (m : List (String × α)) (k : String) (v : α)
    (h : mapHas m k = false) : mapGet (mapSet m k v) k = some v := by
  unfold mapSet
  simp only [h, Bool.false_eq_true, if_false]
  unfold mapGet
  induction m with
  | nil => simp
  | cons p t ih =>
    simp only [mapHas, List.any_cons, Bool.or_eq_false_iff] at h
    simp only [List.cons_append, List.find?_cons, h.1]
    exact ih h.2

theorem mapHas_mapDelete_self (m : List (String × α)) (k : String) :
    mapHas (mapDelete m k) k = false := by
  unfold mapHas mapDelete
  rw [List.any_eq_false]
  intro p hp
  have := (List.mem_filter.mp hp).2
  simpa [bne, Bool.not_eq_true'] using this

theorem mapHas_mapDelete_ne (m : List (String × α)) (k k' : String) (h : k' ≠ k) :
    mapHas (mapDelete m k) k' = mapHas m k' := by
  unfold mapHas mapDelete
  induction m with
  | nil => rfl
  | cons p t ih =>
    rw [List.filter_cons]
    by_cases hp : (p.1 != k) = true
    · rw [if_pos hp, List.any_cons, List.any_cons, ih]
    · have hpk : p.1 = k := by
        simpa using hp
      have hc : (p.1 == k') = false := by
        simp [hpk, Ne.symm h]
      rw [if_neg hp, List.any_cons, hc, Bool.false_or, ih]

theorem mapGet_mapDelete_self (m : List (String × α)) (k : String) :
    mapGet (mapDelete m k) k = none :=
  mapGet_eq_none_of_not_has _ _ (mapHas_mapDelete_self m k)

theorem mapGet_mapDelete_ne (m : List (String × α)) (k k' : String) (h : k' ≠ k) :
    mapGet (mapDelete m k) k' = mapGet m k' := by
  unfold mapGet mapDelete
  induction m with
  | nil => rfl
  | cons p t ih =>
    rw [List.filter_cons]
    by_cases hp : (p.1 != k) = true
    · rw [if_pos hp]
      by_cases hc : (p.1 == k') = true
      · simp only [List.find?_cons, hc]
      · have hc' : (p.1 == k') = false := by
          simpa using hc
        simp only [List.find?_cons, hc']
        exact ih
    · have hpk : p.1 = k := by
        simpa using hp
      have hc : (p.1 == k') = false := by
        simp [hpk, Ne.symm h]
      rw [if_neg hp]
      simp only [List.find?_cons, hc]
      exact ih

theorem mem_of_mem_mapDelete (m : List (String × α)) (k : String) (p : String × α)
    (h : p ∈ mapDelete m k) : p ∈ m :=
  (List.mem_filter.mp h).1

theorem mem_mapSet (m : List (String × α)) (k : String) (v : α) (p : String × α)
    (h : p ∈ mapSet m k v) : p ∈ m ∨ p = (k, v) := by
  unfold mapSet at h
  by_cases hm : mapHas m k = true
  · simp only [hm, if_true] at h
    rcases List.mem_map.mp h with ⟨q, hq, he⟩
    by_cases hqk : (q.1 == k) = true
    · rw [if_pos hqk] at he
      exact Or.inr he.symm
    · rw [if_neg hqk] at he
      exact Or.inl (he ▸ hq)
  · simp only [hm] at h
    rcases List.mem_append.mp h with h1 | h1
    · exact Or.inl h1
    · exact Or.inr (by simpa using h1)

theorem mem_setAdd (s : List String) (k k' : String) (h : k' ∈ setAdd s k) :
    k' ∈ s ∨ k' = k := by
  unfold setAdd at h
  by_cases hc : s.contains k = true
  · simp only [hc, if_true] at h
    exact Or.inl h
  · simp only [hc] at h
    rcases List.mem_append.mp h with h1 | h1
    · exact Or.inl h1
    · exact Or.inr (by simpa using h1)

theorem mem_setDelete_iff (s : List String) (k k' : String) :
    k' ∈ setDelete s k ↔ k' ∈ s ∧ k' ≠ k := by
  unfold setDelete
  simp [List.mem_filter, bne]

/-! ## Effect lemmas for the kill primitives -/

/-- Killing handles touches only the global trigger registry and the kill
log: the five registry fields and the other logs are untouched. -/
def OnlyKillEffects (s s' : ManagerState) : Prop :=
  s'.activeAnimations = s.activeAnimations ∧
  s'.scrollTriggers = s.scrollTriggers ∧
  s'.contexts = s.contexts ∧
  s'.persistentAnimations = s.persistentAnimations ∧
  s'.persistentScrollTriggers = s.persistentScrollTriggers ∧
  s'.revertedLog = s.revertedLog ∧
  s'.refreshedLog = s.refreshedLog

theorem onlyKillEffects_refl (s : ManagerState) : OnlyKillEffects s s :=
  ⟨rfl, rfl, rfl, rfl, rfl, rfl, rfl⟩

theorem onlyKillEffects_trans {s s' s'' : ManagerState}
    (h1 : OnlyKillEffects s s') (h2 : OnlyKillEffects s' s'') : OnlyKillEffects s s'' := by
  obtain ⟨a1, b1, c1, d1, e1, f1, g1⟩ := h1
  obtain ⟨a2, b2, c2, d2, e2, f2, g2⟩ := h2
  exact ⟨a2.trans a1, b2.trans b1, c2.trans c1, d2.trans d1, e2.trans e1,
    f2.trans f1, g2.trans g1⟩

theorem killHandle_only (h : Handle) (s : ManagerState) :
    OnlyKillEffects s (killHandle h s).2 := by
  unfold killHandle
  by_cases ht : h.killThrows <;> simp [ht, onlyKillEffects_refl, OnlyKillEffects]

theorem killAnimations_only (hs : List Handle) (s : ManagerState) :
    OnlyKillEffects s (killAnimations hs s) := by
  induction hs generalizing s with
  | nil => exact onlyKillEffects_refl s
  | cons h t ih =>
    exact onlyKillEffects_trans (killHandle_only h s) (ih (killHandle h s).2)

theorem killScrollTriggers_only (hs : List Handle) (s : ManagerState) :
    OnlyKillEffects s ((killScrollTriggers hs s).2) := by
  induction hs generalizing s with
  | nil => exact onlyKillEffects_refl s
  | cons h t ih =>
    unfold killScrollTriggers
    by_cases hr : (killHandle h s).1 = true
    · simp only [hr, if_true]
      exact onlyKillEffects_trans (killHandle_only h s) (ih (killHandle h s).2)
    · simp only [Bool.not_eq_true] at hr
      simp only [hr, Bool.false_eq_true, if_false]
      exact killHandle_only h s

/-- The exact kill log of `killAnimations`: the ids of the handles whose
`kill()` did not throw, in order (throwing handles are caught and skipped). -/
theorem killAnimations_log (hs : List Handle) (s : ManagerState) :
    (killAnimations hs s).killedLog =
      s.killedLog ++ (hs.filter (fun h => !h.killThrows)).map (fun h => h.id) := by
  induction hs generalizing s with
  | nil => simp [killAnimations]
  | cons h t ih =>
    unfold killAnimations killHandle
    by_cases ht : h.killThrows <;> simp [ht, ih, List.filter_cons]

/-- `killScrollTriggers` on a batch of non-throwing handles completes and
kills every handle of the batch, in order. -/
theorem killScrollTriggers_noThrow (hs : List Handle) (s : ManagerState)
    (h : ∀ x ∈ hs, x.killThrows = false) :
    (killScrollTriggers hs s).1 = true ∧
      ((killScrollTriggers hs s).2).killedLog =
        s.killedLog ++ hs.map (fun x => x.id) := by
  induction hs generalizing s with
  | nil => simp [killScrollTriggers]
  | cons x t ih =>
    have hx : x.killThrows = false := h x (by simp)
    unfold killScrollTriggers killHandle
    simp only [hx, Bool.false_eq_true, if_false, if_true]
    have := ih ({ s with
      globalTriggers := s.globalTriggers.filter (fun u => u.id != x.id)
      killedLog := s.killedLog ++ [x.id] }) (fun y hy => h y (by simp [hy]))
    simpa using this

/-- `killScrollTriggers` on a batch whose first throwing handle is `bad`:
the exception escapes and only the handles before `bad` are killed — the
remaining ones are not visited. -/
theorem killScrollTriggers_throw (pre : List Handle) (bad : Handle) (rest : List Handle)
    (s : ManagerState) (hpre : ∀ x ∈ pre, x.killThrows = false)
    (hbad : bad.killThrows = true) :
    (killScrollTriggers (pre ++ bad :: rest) s).1 = false ∧
      ((killScrollTriggers (pre ++ bad :: rest) s).2).killedLog =
        s.killedLog ++ pre.map (fun x => x.id) := by
  induction pre generalizing s with
  | nil =>
    unfold killScrollTriggers killHandle
    simp [hbad]
  | cons x t ih =>
    have hx : x.killThrows = false := hpre x (by simp)
    unfold killScrollTriggers killHandle
    simp only [hx, Bool.false_eq_true, if_false, if_true, List.cons_append]
    have := ih ({ s with
      globalTriggers := s.globalTriggers.filter (fun u => u.id != x.id)
      killedLog := s.killedLog ++ [x.id] }) (fun y hy => hpre y (by simp [hy]))
    simpa using this

/-- The kill log only grows. -/
theorem killAnimations_killed_mono (hs : List Handle) (s : ManagerState) (i : Nat)
    (h : i ∈ s.killedLog) : i ∈ (killAnimations hs s).killedLog := by
  rw [killAnimations_log]
  exact List.mem_append_left _ h

/-- A kill batch only adds ids of the batch to the kill log. -/
theorem killAnimations_killed_subset (hs : List Handle) (s : ManagerState) (i : Nat)
    (h : i ∈ (killAnimations hs s).killedLog) :
    i ∈ s.killedLog ∨ i ∈ hs.map (fun x => x.id) := by
  rw [killAnimations_log] at h
  rcases List.mem_append.mp h with h1 | h1
  · exact Or.inl h1
  · right
    rcases List.mem_map.mp h1 with ⟨x, hx, rfl⟩
    exact List.mem_map.mpr ⟨x, (List.mem_filter.mp hx).1, rfl⟩

theorem killScrollTriggers_killed_mono (hs : List Handle) (s : ManagerState) (i : Nat)
    (h : i ∈ s.killedLog) : i ∈ ((killScrollTriggers hs s).2).killedLog := by
  induction hs generalizing s with
  | nil => exact h
  | cons x t ih =>
    unfold killScrollTriggers killHandle
    by_cases ht : x.killThrows <;> simp only [ht, Bool.false_eq_true, if_false, if_true]
    · exact h
    · exact ih _ (by simp [h])

theorem killScrollTriggers_killed_subset (hs : List Handle) (s : ManagerState) (i : Nat)
    (h : i ∈ ((killScrollTriggers hs s).2).killedLog) :
    i ∈ s.killedLog ∨ i ∈ hs.map (fun x => x.id) := by
  induction hs generalizing s with
  | nil => exact Or.inl h
  | cons x t ih =>
    unfold killScrollTriggers killHandle at h
    by_cases ht : x.killThrows
    · simp only [ht, if_true] at h
      exact Or.inl h
    · simp only [ht, Bool.false_eq_true, if_false, if_true] at h
      rcases ih _ h with h1 | h1
      · rcases List.mem_append.mp h1 with h2 | h2
        · exact Or.inl h2
        · right
          simp only [List.mem_singleton] at h2
          simp [h2]
      · right
        simp [h1]

/-! ## Global trigger registry accounting -/

/-- Every handle of the old global registry is either still registered or
was successfully killed (its id logged). -/
def GlobalAccounted (s s' : ManagerState) : Prop :=
  ∀ t, t ∈ s.globalTriggers → t ∈ s'.globalTriggers ∨ t.id ∈ s'.killedLog

/-- The kill log only ever grows. -/
def KilledMono (s s' : ManagerState) : Prop :=
  ∀ i, i ∈ s.killedLog → i ∈ s'.killedLog

theorem globalAccounted_refl (s : ManagerState) : GlobalAccounted s s :=
  fun _ ht => Or.inl ht

theorem killedMono_refl (s : ManagerState) : KilledMono s s :=
  fun _ h => h

theorem killedMono_trans {s s' s'' : ManagerState}
    (h1 : KilledMono s s') (h2 : KilledMono s' s'') : KilledMono s s'' :=
  fun i h => h2 i (h1 i h)

theorem globalAccounted_trans {s s' s'' : ManagerState}
    (h1 : GlobalAccounted s s') (h2 : GlobalAccounted s' s'')
    (hm : KilledMono s' s'') : GlobalAccounted s s'' := by
  intro t ht
  rcases h1 t ht with h | h
  · exact h2 t h
  · exact Or.inr (hm _ h)

theorem killHandle_killedMono (h : Handle) (s : ManagerState) :
    KilledMono s (killHandle h s).2 := by
  unfold killHandle
  by_cases ht : h.killThrows <;> simp [ht, KilledMono]
  intro i hi
  exact Or.inl hi

theorem killHandle_globalAccounted (h : Handle) (s : ManagerState) :
    GlobalAccounted s (killHandle h s).2 := by
  unfold killHandle
  by_cases ht : h.killThrows
  · simp only [ht, if_true]
    exact globalAccounted_refl s
  · simp only [ht, Bool.false_eq_true, if_false]
    intro t htm
    by_cases hid : t.id = h.id
    · right
      simp [hid]
    · left
      simp only [List.mem_filter]
      exact ⟨htm, by simp [hid]⟩

theorem killAnimations_killedMono' (hs : List Handle) (s : ManagerState) :
    KilledMono s (killAnimations hs s) :=
  fun i h => killAnimations_killed_mono hs s i h

theorem killScrollTriggers_killedMono' (hs : List Handle) (s : ManagerState) :
    KilledMono s ((killScrollTriggers hs s).2) :=
  fun i h => killScrollTriggers_killed_mono hs s i h

theorem killAnimations_globalAccounted (hs : List Handle) (s : ManagerState) :
    GlobalAccounted s (killAnimations hs s) := by
  induction hs generalizing s with
  | nil => exact globalAccounted_refl s
  | cons h t ih =>
    unfold killAnimations
    exact globalAccounted_trans (killHandle_globalAccounted h s) (ih _)
      (killAnimations_killedMono' t _)

theorem killScrollTriggers_globalAccounted (hs : List Handle) (s : ManagerState) :
    GlobalAccounted s ((killScrollTriggers hs s).2) := by
  induction hs generalizing s with
  | nil => exact globalAccounted_refl s
  | cons h t ih =>
    unfold killScrollTriggers
    by_cases hr : (killHandle h s).1 = true
    · simp only [hr, if_true]
      exact globalAccounted_trans (killHandle_globalAccounted h s) (ih _)
        (killScrollTriggers_killedMono' t _)
    · simp only [Bool.not_eq_true] at hr
      simp only [hr, Bool.false_eq_true, if_false]
      exact killHandle_globalAccounted h s

/-- Kill batches never add global registrations. -/
theorem killAnimations_global_subset (hs : List Handle) (s : ManagerState) (t : Handle)
    (h : t ∈ (killAnimations hs s).globalTriggers) : t ∈ s.globalTriggers := by
  induction hs generalizing s with
  | nil => exact h
  | cons x xs ih =>
    unfold killAnimations killHandle at h
    by_cases ht : x.killThrows
    · simpa [ht] using ih _ h
    · simp only [ht, Bool.false_eq_true, if_false] at h
      have := ih _ h
      simp only [List.mem_filter] at this
      exact this.1

theorem killScrollTriggers_global_subset (hs : List Handle) (s : ManagerState) (t : Handle)
    (h : t ∈ ((killScrollTriggers hs s).2).globalTriggers) : t ∈ s.globalTriggers := by
  induction hs generalizing s with
  | nil => exact h
  | cons x xs ih =>
    unfold killScrollTriggers killHandle at h
    by_cases ht : x.killThrows
    · simpa [ht] using h
    · simp only [ht, Bool.false_eq_true, if_false, if_true] at h
      have := ih _ h
      simp only [List.mem_filter] at this
      exact this.1

/-- Killing a batch that covers the whole global registry empties it. -/
theorem killScrollTriggers_global_clear (L : List Handle) (s : ManagerState)
    (hsub : ∀ t ∈ s.globalTriggers, t.id ∈ L.map (fun x => x.id))
    (hnt : ∀ x ∈ L, x.killThrows = false) :
    ((killScrollTriggers L s).2).globalTriggers = [] := by
  induction L generalizing s with
  | nil =>
    rw [List.eq_nil_iff_forall_not_mem]
    intro t ht
    simpa using hsub t ht
  | cons x xs ih =>
    have hx : x.killThrows = false := hnt x (by simp)
    unfold killScrollTriggers killHandle
    simp only [hx, Bool.false_eq_true, if_false, if_true]
    refine ih _ ?_ (fun y hy => hnt y (by simp [hy]))
    intro t ht
    simp only [List.mem_filter] at ht
    have h1 := hsub t ht.1
    have h2 : t.id ≠ x.id := by
      simpa using ht.2
    simp only [List.map_cons, List.mem_cons] at h1
    rcases h1 with h1 | h1
    · exact absurd h1 h2
    · simpa using h1

/-! ## Lemmas on the `forceCleanupAll` sweeps -/

/-- `revertAllCtx` only reverts: it appends the context keys to the revert
log and changes nothing else. -/
theorem revertAllCtx_eq (l : List (String × Ctx)) (s : ManagerState) :
    revertAllCtx l s = { s with revertedLog := s.revertedLog ++ l.map (fun p => p.1) } := by
  induction l generalizing s with
  | nil => simp [revertAllCtx]
  | cons p t ih => simp [revertAllCtx, ih]

theorem killAllAnimGroups_only (l : List (String × List Handle)) (s : ManagerState) :
    OnlyKillEffects s (killAllAnimGroups l s) := by
  induction l generalizing s with
  | nil => exact onlyKillEffects_refl s
  | cons p t ih =>
    exact onlyKillEffects_trans (killAnimations_only p.2 s) (ih _)

theorem killAllAnimGroups_killedMono (l : List (String × List Handle)) (s : ManagerState) :
    KilledMono s (killAllAnimGroups l s) := by
  induction l generalizing s with
  | nil => exact killedMono_refl s
  | cons p t ih =>
    exact killedMono_trans (killAnimations_killedMono' p.2 s) (ih _)

theorem killAllAnimGroups_globalAccounted (l : List (String × List Handle))
    (s : ManagerState) : GlobalAccounted s (killAllAnimGroups l s) := by
  induction l generalizing s with
  | nil => exact globalAccounted_refl s
  | cons p t ih =>
    exact globalAccounted_trans (killAnimations_globalAccounted p.2 s) (ih _)
      (killAllAnimGroups_killedMono t _)

theorem killAllAnimGroups_global_subset (l : List (String × List Handle))
    (s : ManagerState) (t : Handle) (h : t ∈ (killAllAnimGroups l s).globalTriggers) :
    t ∈ s.globalTriggers := by
  induction l generalizing s with
  | nil => exact h
  | cons p ps ih =>
    exact killAnimations_global_subset p.2 s t (ih _ h)

/-- Every non-throwing animation handle of every group is killed by the
group sweep. -/
theorem killAllAnimGroups_kills (l : List (String × List Handle)) (s : ManagerState)
    (p : String × List Handle) (hp : p ∈ l) (h : Handle) (hh : h ∈ p.2)
    (ht : h.killThrows = false) : h.id ∈ (killAllAnimGroups l s).killedLog := by
  induction l generalizing s with
  | nil => exact absurd hp (List.not_mem_nil p)
  | cons q t ih =>
    rcases List.mem_cons.mp hp with rfl | hp'
    · refine killAllAnimGroups_killedMono t _ _ ?_
      rw [killAnimations_log]
      refine List.mem_append_right _ (List.mem_map.mpr ⟨h, ?_, rfl⟩)
      exact List.mem_filter.mpr ⟨hh, by simp [ht]⟩
    · exact ih _ hp'

theorem killAllTrigGroups_only (l : List (String × List Handle)) (s : ManagerState) :
    OnlyKillEffects s ((killAllTrigGroups l s).2) := by
  induction l generalizing s with
  | nil => exact onlyKillEffects_refl s
  | cons p t ih =>
    unfold killAllTrigGroups
    by_cases hr : (killScrollTriggers p.2 s).1 = true
    · simp only [hr, if_true]
      exact onlyKillEffects_trans (killScrollTriggers_only p.2 s) (ih _)
    · simp only [Bool.not_eq_true] at hr
      simp only [hr, Bool.false_eq_true, if_false]
      exact killScrollTriggers_only p.2 s

theorem killAllTrigGroups_killedMono (l : List (String × List Handle)) (s : ManagerState) :
    KilledMono s ((killAllTrigGroups l s).2) := by
  induction l generalizing s with
  | nil => exact killedMono_refl s
  | cons p t ih =>
    unfold killAllTrigGroups
    by_cases hr : (killScrollTriggers p.2 s).1 = true
    · simp only [hr, if_true]
      exact killedMono_trans (killScrollTriggers_killedMono' p.2 s) (ih _)
    · simp only [Bool.not_eq_true] at hr
      simp only [hr, Bool.false_eq_true, if_false]
      exact killScrollTriggers_killedMono' p.2 s

theorem killAllTrigGroups_globalAccounted (l : List (String × List Handle))
    (s : ManagerState) : GlobalAccounted s ((killAllTrigGroups l s).2) := by
  induction l generalizing s with
  | nil => exact globalAccounted_refl s
  | cons p t ih =>
    unfold killAllTrigGroups
    by_cases hr : (killScrollTriggers p.2 s).1 = true
    · simp only [hr, if_true]
      exact globalAccounted_trans (killScrollTriggers_globalAccounted p.2 s) (ih _)
        (killAllTrigGroups_killedMono t _)
    · simp only [Bool.not_eq_true] at hr
      simp only [hr, Bool.false_eq_true, if_false]
      exact killScrollTriggers_globalAccounted p.2 s

theorem killAllTrigGroups_global_subset (l : List (String × List Handle))
    (s : ManagerState) (t : Handle) (h : t ∈ ((killAllTrigGroups l s).2).globalTriggers) :
    t ∈ s.globalTriggers := by
  induction l generalizing s with
  | nil => exact h
  | cons p ps ih =>
    unfold killAllTrigGroups at h
    by_cases hr : (killScrollTriggers p.2 s).1 = true
    · simp only [hr, if_true] at h
      exact killScrollTriggers_global_subset p.2 s t (ih _ h)
    · simp only [Bool.not_eq_true] at hr
      simp only [hr, Bool.false_eq_true, if_false] at h
      exact killScrollTriggers_global_subset p.2 s t h

/-- When no stored trigger handle throws, the trigger group sweep completes
and kills every stored trigger handle. -/
theorem killAllTrigGroups_noThrow (l : List (String × List Handle)) (s : ManagerState)
    (hnt : ∀ p ∈ l, ∀ h ∈ p.2, h.killThrows = false) :
    (killAllTrigGroups l s).1 = true ∧
      ∀ p ∈ l, ∀ h ∈ p.2, h.id ∈ ((killAllTrigGroups l s).2).killedLog := by
  induction l generalizing s with
  | nil => simp [killAllTrigGroups]
  | cons q t ih =>
    have hq := killScrollTriggers_noThrow q.2 s (hnt q (by simp))
    unfold killAllTrigGroups
    simp only [hq.1, if_true]
    have iht := ih ((killScrollTriggers q.2 s).2) (fun p hp => hnt p (by simp [hp]))
    refine ⟨iht.1, ?_⟩
    intro p hp h hh
    rcases List.mem_cons.mp hp with rfl | hp'
    · refine killAllTrigGroups_killedMono t _ _ ?_
      rw [hq.2]
      exact List.mem_append_right _ (List.mem_map.mpr ⟨h, hh, rfl⟩)
    · exact iht.2 p hp' h hh

/-- Full characterization of a successful `forceCleanupAll`: when no stored
trigger handle and no globally registered trigger throws, it completes,
drives all three stores, both persistence sets and the global registry to
empty, kills every stored handle (animation handles that throw are caught
and merely skipped) and every globally registered trigger, and reverts
every context. -/
theorem forceCleanupAll_spec (s : ManagerState)
    (hst : ∀ p ∈ s.scrollTriggers, ∀ h ∈ p.2, h.killThrows = false)
    (hg : ∀ t ∈ s.globalTriggers, t.killThrows = false) :
    (forceCleanupAll s).1 = true ∧
      ((forceCleanupAll s).2).activeAnimations = [] ∧
      ((forceCleanupAll s).2).scrollTriggers = [] ∧
      ((forceCleanupAll s).2).contexts = [] ∧
      ((forceCleanupAll s).2).persistentAnimations = [] ∧
      ((forceCleanupAll s).2).persistentScrollTriggers = [] ∧
      ((forceCleanupAll s).2).globalTriggers = [] ∧
      (∀ t ∈ s.globalTriggers, t.id ∈ ((forceCleanupAll s).2).killedLog) ∧
      (∀ p ∈ s.activeAnimations, ∀ h ∈ p.2, h.killThrows = false →
        h.id ∈ ((forceCleanupAll s).2).killedLog) ∧
      (∀ p ∈ s.scrollTriggers, ∀ h ∈ p.2, h.id ∈ ((forceCleanupAll s).2).killedLog) ∧
      (∀ p ∈ s.contexts, p.1 ∈ ((forceCleanupAll s).2).revertedLog) := by
  unfold forceCleanupAll
  set s1 : ManagerState := forceStage1 s with hs1
  set s2 : ManagerState := forceStage2 s1 with hs2
  have h1a : s1.activeAnimations = s.activeAnimations := by
    rw [hs1]
    unfold forceStage1
    rw [revertAllCtx_eq]
  have h1st : s1.scrollTriggers = s.scrollTriggers := by
    rw [hs1]
    unfold forceStage1
    rw [revertAllCtx_eq]
  have h1g : s1.globalTriggers = s.globalTriggers := by
    rw [hs1]
    unfold forceStage1
    rw [revertAllCtx_eq]
  have h1r : s1.revertedLog = s.revertedLog ++ s.contexts.map (fun p => p.1) := by
    rw [hs1]
    unfold forceStage1
    rw [revertAllCtx_eq]
  obtain ⟨o2a, o2st, o2c, o2pa, o2pt, o2r, o2f⟩ := killAllAnimGroups_only s1.activeAnimations s1
  have h2a : s2.activeAnimations = [] := by
    rw [hs2]
    unfold forceStage2
    rfl
  have h2st : s2.scrollTriggers = s.scrollTriggers := by
    rw [hs2]
    unfold forceStage2
    exact o2st.trans h1st
  have h2c : s2.contexts = [] := by
    rw [hs2]
    unfold forceStage2
    refine o2c.trans ?_
    rw [hs1]
    unfold forceStage1
    rfl
  have hnt2 : ∀ p ∈ s2.scrollTriggers, ∀ h ∈ p.2, h.killThrows = false := by
    rw [h2st]
    exact hst
  have hok := killAllTrigGroups_noThrow s2.scrollTriggers s2 hnt2
  rw [if_pos hok.1]
  set s3 : ManagerState := forceStage3 ((killAllTrigGroups s2.scrollTriggers s2).2) with hs3
  obtain ⟨o3a, o3st, o3c, o3pa, o3pt, o3r, o3f⟩ := killAllTrigGroups_only s2.scrollTriggers s2
  have h3a : s3.activeAnimations = [] := by
    rw [hs3]
    unfold forceStage3
    exact o3a.trans h2a
  have h3st : s3.scrollTriggers = [] := by
    rw [hs3]
    unfold forceStage3
    rfl
  have h3c : s3.contexts = [] := by
    rw [hs3]
    unfold forceStage3
    exact o3c.trans h2c
  have h3pa : s3.persistentAnimations = [] := by
    rw [hs3]
    unfold forceStage3
    rfl
  have h3pt : s3.persistentScrollTriggers = [] := by
    rw [hs3]
    unfold forceStage3
    rfl
  have h3k : s3.killedLog = ((killAllTrigGroups s2.scrollTriggers s2).2).killedLog := by
    rw [hs3]
    unfold forceStage3
    rfl
  have h3g : s3.globalTriggers = ((killAllTrigGroups s2.scrollTriggers s2).2).globalTriggers := by
    rw [hs3]
    unfold forceStage3
    rfl
  have h3r : s3.revertedLog = s1.revertedLog := by
    rw [hs3]
    unfold forceStage3
    exact o3r.trans (by rw [hs2]; unfold forceStage2; exact o2r)
  -- every handle still globally registered at stage 3 was registered initially
  have h3gsub : ∀ t, t ∈ s3.globalTriggers → t ∈ s.globalTriggers := by
    intro t ht
    rw [h3g] at ht
    have ht2 : t ∈ s2.globalTriggers := killAllTrigGroups_global_subset _ _ _ ht
    rw [hs2] at ht2
    unfold forceStage2 at ht2
    have ht1 : t ∈ s1.globalTriggers := killAllAnimGroups_global_subset _ _ _ ht2
    rw [h1g] at ht1
    exact ht1
  have hg3 : ∀ t ∈ s3.globalTriggers, t.killThrows = false := fun t ht => hg t (h3gsub t ht)
  have hfin := killScrollTriggers_noThrow s3.globalTriggers s3 hg3
  have hfing : ((killScrollTriggers s3.globalTriggers s3).2).globalTriggers = [] := by
    refine killScrollTriggers_global_clear s3.globalTriggers s3 ?_ hg3
    intro t ht
    exact List.mem_map.mpr ⟨t, ht, rfl⟩
  obtain ⟨ofa, ofst, ofc, ofpa, ofpt, ofr, off'⟩ := killScrollTriggers_only s3.globalTriggers s3
  have hm3f : KilledMono s3 ((killScrollTriggers s3.globalTriggers s3).2) :=
    killScrollTriggers_killedMono' s3.globalTriggers s3
  have hm12 : KilledMono s1 s2 := by
    intro i hi
    rw [hs2]
    unfold forceStage2
    exact killAllAnimGroups_killedMono s1.activeAnimations s1 i hi
  have hm23 : KilledMono s2 s3 := by
    intro i hi
    rw [hs3]
    unfold forceStage3
    exact killAllTrigGroups_killedMono s2.scrollTriggers s2 i hi
  have hga : ∀ t ∈ s.globalTriggers,
      t.id ∈ ((killScrollTriggers s3.globalTriggers s3).2).killedLog := by
    intro t ht
    have hga1 : GlobalAccounted s s1 := by
      intro u hu
      rw [h1g]
      exact Or.inl hu
    have hga2 : GlobalAccounted s1 s2 := by
      intro u hu
      rw [hs2]
      unfold forceStage2
      exact killAllAnimGroups_globalAccounted s1.activeAnimations s1 u hu
    have hga3 : GlobalAccounted s2 s3 := by
      intro u hu
      rw [hs3]
      unfold forceStage3
      exact killAllTrigGroups_globalAccounted s2.scrollTriggers s2 u hu
    have hgaf : GlobalAccounted s3 ((killScrollTriggers s3.globalTriggers s3).2) :=
      killScrollTriggers_globalAccounted s3.globalTriggers s3
    have hall := globalAccounted_trans
      (globalAccounted_trans (globalAccounted_trans hga1 hga2 hm12) hga3 hm23)
      hgaf hm3f
    rcases hall t ht with h | h
    · rw [hfing] at h
      exact absurd h (List.not_mem_nil t)
    · exact h
  refine ⟨hfin.1, ofa.trans h3a, ofst.trans h3st, ofc.trans h3c, ofpa.trans h3pa,
    ofpt.trans h3pt, hfing, hga, ?_, ?_, ?_⟩
  · intro p hp h hh ht
    refine hm3f _ (hm23 _ (killAllAnimGroups_kills s1.activeAnimations s1 p ?_ h hh ht))
    rw [h1a]
    exact hp
  · intro p hp h hh
    refine hm3f _ ?_
    rw [h3k]
    refine hok.2 p ?_ h hh
    rw [h2st]
    exact hp
  · intro p hp
    rw [ofr, h3r, h1r]
    exact List.mem_append_right _ (List.mem_map.mpr ⟨p, hp, rfl⟩)

/-! ## Lemmas on the `cleanupAll` sweeps -/

/-- The context sweep changes only the context store and the revert log. -/
theorem revertCtxKeys_fields (keys : List String) (s : ManagerState) :
    (revertCtxKeys keys s).activeAnimations = s.activeAnimations ∧
      (revertCtxKeys keys s).scrollTriggers = s.scrollTriggers ∧
      (revertCtxKeys keys s).persistentAnimations = s.persistentAnimations ∧
      (revertCtxKeys keys s).persistentScrollTriggers = s.persistentScrollTriggers ∧
      (revertCtxKeys keys s).globalTriggers = s.globalTriggers ∧
      (revertCtxKeys keys s).killedLog = s.killedLog ∧
      (revertCtxKeys keys s).refreshedLog = s.refreshedLog := by
  induction keys generalizing s with
  | nil => exact ⟨rfl, rfl, rfl, rfl, rfl, rfl, rfl⟩
  | cons k rest ih =>
    unfold revertCtxKeys
    cases hc : mapGet s.contexts k <;> simpa using ih _

/-- A key not in the sweep list keeps its context entry. -/
theorem revertCtxKeys_mapGet (keys : List String) (s : ManagerState) (k : String)
    (hk : keys.contains k = false) :
    mapGet (revertCtxKeys keys s).contexts k = mapGet s.contexts k := by
  induction keys generalizing s with
  | nil => rfl
  | cons x rest ih =>
    have hx : x ≠ k := by
      intro he
      rw [he] at hk
      simp [List.contains_cons] at hk
    have hrest : rest.contains k = false := by
      simp [List.contains_cons] at hk
      simpa using hk.2
    unfold revertCtxKeys
    cases hc : mapGet s.contexts x <;>
      simp [ih _ hrest, mapGet_mapDelete_ne _ _ _ (Ne.symm hx)]

/-- A key surviving the context sweep was present before and escaped the
sweep list. -/
theorem revertCtxKeys_mapHas (keys : List String) (s : ManagerState) (k : String)
    (h : mapHas (revertCtxKeys keys s).contexts k = true) :
    mapHas s.contexts k = true ∧ keys.contains k = false := by
  induction keys generalizing s with
  | nil => exact ⟨h, rfl⟩
  | cons x rest ih =>
    unfold revertCtxKeys at h
    by_cases hx : x = k
    · subst hx
      rcases (by cases hc : mapGet s.contexts x <;> simp [hc] at h <;> exact ih _ h :
          mapHas (mapDelete s.contexts x) x = true ∧ rest.contains x = false) with ⟨h1, _⟩
      rw [mapHas_mapDelete_self] at h1
      exact absurd h1 (by simp)
    · have hrec : mapHas (mapDelete s.contexts x) k = true ∧ rest.contains k = false := by
        cases hc : mapGet s.contexts x <;> simp [hc] at h <;> exact ih _ h
      rw [mapHas_mapDelete_ne _ _ _ (Ne.symm hx)] at hrec
      refine ⟨hrec.1, ?_⟩
      have hkr : k ∉ rest := by
        simpa using hrec.2
      simp [List.contains_cons]
      exact ⟨Ne.symm hx, hkr⟩

/-- The animation sweep changes only the animation store, the global
registry and the kill log. -/
theorem killAnimKeys_fields (keys : List String) (s : ManagerState) :
    (killAnimKeys keys s).scrollTriggers = s.scrollTriggers ∧
      (killAnimKeys keys s).contexts = s.contexts ∧
      (killAnimKeys keys s).persistentAnimations = s.persistentAnimations ∧
      (killAnimKeys keys s).persistentScrollTriggers = s.persistentScrollTriggers ∧
      (killAnimKeys keys s).revertedLog = s.revertedLog ∧
      (killAnimKeys keys s).refreshedLog = s.refreshedLog := by
  induction keys generalizing s with
  | nil => exact ⟨rfl, rfl, rfl, rfl, rfl, rfl⟩
  | cons k rest ih =>
    unfold killAnimKeys
    cases hc : mapGet s.activeAnimations k with
    | none =>
      simp only [hc]
      have := ih ({ s with activeAnimations := mapDelete s.activeAnimations k })
      simpa using this
    | some animations =>
      simp only [hc]
      obtain ⟨oa, ost, oc, opa, opt, orv, orf⟩ := killAnimations_only animations s
      have := ih ({ killAnimations animations s with
        activeAnimations := mapDelete (killAnimations animations s).activeAnimations k })
      simp only [this.1, this.2.1, this.2.2.1, this.2.2.2.1, this.2.2.2.2.1, this.2.2.2.2.2]
      exact ⟨ost, oc, opa, opt, orv, orf⟩

/-- A key not in the sweep list keeps its animation entry. -/
theorem killAnimKeys_mapGet (keys : List String) (s : ManagerState) (k : String)
    (hk : keys.contains k = false) :
    mapGet (killAnimKeys keys s).activeAnimations k = mapGet s.activeAnimations k := by
  induction keys generalizing s with
  | nil => rfl
  | cons x rest ih =>
    have hx : x ≠ k := by
      intro he
      rw [he] at hk
      simp [List.contains_cons] at hk
    have hrest : rest.contains k = false := by
      simp [List.contains_cons] at hk
      simpa using hk.2
    unfold killAnimKeys
    cases hc : mapGet s.activeAnimations x with
    | none =>
      simp only [hc]
      rw [ih _ hrest]
      exact mapGet_mapDelete_ne _ _ _ (Ne.symm hx)
    | some animations =>
      simp only [hc]
      rw [ih _ hrest]
      obtain ⟨oa, _, _, _, _, _, _⟩ := killAnimations_only animations s
      rw [mapGet_mapDelete_ne _ _ _ (Ne.symm hx), oa]

/-- A key surviving the animation sweep escaped the sweep list. -/
theorem killAnimKeys_mapHas (keys : List String) (s : ManagerState) (k : String)
    (h : mapHas (killAnimKeys keys s).activeAnimations k = true) :
    mapHas s.activeAnimations k = true ∧ keys.contains k = false := by
  induction keys generalizing s with
  | nil => exact ⟨h, rfl⟩
  | cons x rest ih =>
    unfold killAnimKeys at h
    have hrec : mapHas (mapDelete
          (match mapGet s.activeAnimations x with
            | some animations => killAnimations animations s
            | none => s).activeAnimations x) k = true ∧ rest.contains k = false := by
      cases hc : mapGet s.activeAnimations x <;> simp only [hc] at h <;> exact ih _ h
    by_cases hx : x = k
    · subst hx
      rw [mapHas_mapDelete_self] at hrec
      exact absurd hrec.1 (by simp)
    · rw [mapHas_mapDelete_ne _ _ _ (Ne.symm hx)] at hrec
      have h1 : mapHas s.activeAnimations k = true := by
        rcases hrec with ⟨h1, _⟩
        cases hc : mapGet s.activeAnimations x with
        | none =>
          rw [hc] at h1
          exact h1
        | some animations =>
          rw [hc] at h1
          obtain ⟨oa, _, _, _, _, _, _⟩ := killAnimations_only animations s
          rw [oa] at h1
          exact h1
      refine ⟨h1, ?_⟩
      have hkr : k ∉ rest := by
        simpa using hrec.2
      simp [List.contains_cons]
      exact ⟨Ne.symm hx, hkr⟩

/-- A successful lookup produces a stored entry. -/
theorem mapGet_mem (m : List (String × α)) (k : String) (v : α)
    (h : mapGet m k = some v) : (k, v) ∈ m := by
  unfold mapGet at h
  rcases Option.map_eq_some'.mp h with ⟨q, hq, hv⟩
  have hqk : q.1 = k := by
    simpa using List.find?_some hq
  have hq' : q = (k, v) := by
    cases q
    simp only at hqk hv
    simp [hqk, hv]
  exact hq' ▸ List.mem_of_find?_eq_some hq

/-- The animation sweep's kill log growth and bound. -/
theorem killAnimKeys_killedMono (keys : List String) (s : ManagerState) :
    KilledMono s (killAnimKeys keys s) := by
  induction keys generalizing s with
  | nil => exact killedMono_refl s
  | cons x rest ih =>
    unfold killAnimKeys
    cases hc : mapGet s.activeAnimations x with
    | none =>
      intro i hi
      exact ih _ i (by simpa using hi)
    | some animations =>
      intro i hi
      refine ih _ i ?_
      simpa using killAnimations_killed_mono animations s i hi

/-- Ids newly killed by the animation sweep belong to groups whose key is
in the sweep list. -/
theorem killAnimKeys_killed_subset (keys : List String) (s : ManagerState) (i : Nat)
    (h : i ∈ (killAnimKeys keys s).killedLog) :
    i ∈ s.killedLog ∨
      ∃ p, p ∈ s.activeAnimations ∧ keys.contains p.1 = true ∧
        i ∈ p.2.map (fun x => x.id) := by
  induction keys generalizing s with
  | nil => exact Or.inl h
  | cons x rest ih =>
    unfold killAnimKeys at h
    cases hc : mapGet s.activeAnimations x with
    | none =>
      rw [hc] at h
      rcases ih _ h with h1 | ⟨p, hp, hpk, hpi⟩
      · exact Or.inl (by simpa using h1)
      · right
        refine ⟨p, mem_of_mem_mapDelete _ _ _ (by simpa using hp), ?_, hpi⟩
        simp [List.contains_cons]
        right
        simpa using hpk
    | some animations =>
      rw [hc] at h
      rcases ih _ h with h1 | ⟨p, hp, hpk, hpi⟩
      · have h2 : i ∈ (killAnimations animations s).killedLog := by
          simpa using h1
        rcases killAnimations_killed_subset animations s i h2 with h3 | h3
        · exact Or.inl h3
        · right
          exact ⟨(x, animations), mapGet_mem _ _ _ hc, by simp [List.contains_cons], h3⟩
      · right
        have hp' : p ∈ (killAnimations animations s).activeAnimations := by
          exact mem_of_mem_mapDelete _ _ _ (by simpa using hp)
        obtain ⟨oa, _, _, _, _, _, _⟩ := killAnimations_only animations s
        rw [oa] at hp'
        refine ⟨p, hp', ?_, hpi⟩
        simp [List.contains_cons]
        right
        simpa using hpk

/-- The trigger sweep changes only the trigger store, the global registry
and the kill log — whether or not it aborts on a throwing `kill()`. -/
theorem killTrigKeys_fields (keys : List String) (s : ManagerState) :
    ((killTrigKeys keys s).2).activeAnimations = s.activeAnimations ∧
      ((killTrigKeys keys s).2).contexts = s.contexts ∧
      ((killTrigKeys keys s).2).persistentAnimations = s.persistentAnimations ∧
      ((killTrigKeys keys s).2).persistentScrollTriggers = s.persistentScrollTriggers ∧
      ((killTrigKeys keys s).2).revertedLog = s.revertedLog ∧
      ((killTrigKeys keys s).2).refreshedLog = s.refreshedLog := by
  induction keys generalizing s with
  | nil => exact ⟨rfl, rfl, rfl, rfl, rfl, rfl⟩
  | cons x rest ih =>
    unfold killTrigKeys
    cases hc : mapGet s.scrollTriggers x with
    | none =>
      simp only [hc]
      simpa using ih ({ s with scrollTriggers := mapDelete s.scrollTriggers x })
    | some triggers =>
      simp only [hc]
      obtain ⟨oa, ost, oc, opa, opt, orv, orf⟩ := killScrollTriggers_only triggers s
      by_cases hr : (killScrollTriggers triggers s).1 = true
      · simp only [hr, if_true]
        have := ih ({ (killScrollTriggers triggers s).2 with
          scrollTriggers := mapDelete ((killScrollTriggers triggers s).2).scrollTriggers x })
        simp only [this.1, this.2.1, this.2.2.1, this.2.2.2.1, this.2.2.2.2.1, this.2.2.2.2.2]
        exact ⟨oa, oc, opa, opt, orv, orf⟩
      · simp only [Bool.not_eq_true] at hr
        simp only [hr, Bool.false_eq_true, if_false]
        exact ⟨oa, oc, opa, opt, orv, orf⟩

/-- A key not in the sweep list keeps its trigger entry, aborted or not. -/
theorem killTrigKeys_mapGet (keys : List String) (s : ManagerState) (k : String)
    (hk : keys.contains k = false) :
    mapGet ((killTrigKeys keys s).2).scrollTriggers k = mapGet s.scrollTriggers k := by
  induction keys generalizing s with
  | nil => rfl
  | cons x rest ih =>
    have hx : x ≠ k := by
      intro he
      rw [he] at hk
      simp [List.contains_cons] at hk
    have hrest : rest.contains k = false := by
      simp [List.contains_cons] at hk
      simpa using hk.2
    unfold killTrigKeys
    cases hc : mapGet s.scrollTriggers x with
    | none =>
      simp only [hc]
      rw [ih _ hrest]
      exact mapGet_mapDelete_ne _ _ _ (Ne.symm hx)
    | some triggers =>
      simp only [hc]
      obtain ⟨_, ost, _, _, _, _, _⟩ := killScrollTriggers_only triggers s
      by_cases hr : (killScrollTriggers triggers s).1 = true
      · simp only [hr, if_true]
        rw [ih _ hrest, mapGet_mapDelete_ne _ _ _ (Ne.symm hx), ost]
      · simp only [Bool.not_eq_true] at hr
        simp only [hr, Bool.false_eq_true, if_false]
        rw [ost]

/-- Stored trigger groups never grow during the sweep: every surviving
entry was present initially. -/
theorem killTrigKeys_mem (keys : List String) (s : ManagerState) (p : String × List Handle)
    (h : p ∈ ((killTrigKeys keys s).2).scrollTriggers) : p ∈ s.scrollTriggers := by
  induction keys generalizing s with
  | nil => exact h
  | cons x rest ih =>
    unfold killTrigKeys at h
    cases hc : mapGet s.scrollTriggers x with
    | none =>
      rw [hc] at h
      exact mem_of_mem_mapDelete _ _ _ (by simpa using ih _ h)
    | some triggers =>
      rw [hc] at h
      obtain ⟨_, ost, _, _, _, _, _⟩ := killScrollTriggers_only triggers s
      by_cases hr : (killScrollTriggers triggers s).1 = true
      · simp only [hr, if_true] at h
        have := ih _ h
        simp only at this
        have := mem_of_mem_mapDelete _ _ _ this
        rw [ost] at this
        exact this
      · simp only [Bool.not_eq_true] at hr
        simp only [hr, Bool.false_eq_true, if_false] at h
        rw [ost] at h
        exact h

theorem killTrigKeys_killedMono (keys : List String) (s : ManagerState) :
    KilledMono s ((killTrigKeys keys s).2) := by
  induction keys generalizing s with
  | nil => exact killedMono_refl s
  | cons x rest ih =>
    unfold killTrigKeys
    cases hc : mapGet s.scrollTriggers x with
    | none =>
      simp only [hc]
      intro i hi
      exact ih _ i (by simpa using hi)
    | some triggers =>
      simp only [hc]
      by_cases hr : (killScrollTriggers triggers s).1 = true
      · simp only [hr, if_true]
        intro i hi
        refine ih _ i ?_
        simpa using killScrollTriggers_killed_mono triggers s i hi
      · simp only [Bool.not_eq_true] at hr
        simp only [hr, Bool.false_eq_true, if_false]
        exact killScrollTriggers_killedMono' triggers s

/-- Ids newly killed by the trigger sweep belong to groups whose key is in
the sweep list. -/
theorem killTrigKeys_killed_subset (keys : List String) (s : ManagerState) (i : Nat)
    (h : i ∈ ((killTrigKeys keys s).2).killedLog) :
    i ∈ s.killedLog ∨
      ∃ p, p ∈ s.scrollTriggers ∧ keys.contains p.1 = true ∧
        i ∈ p.2.map (fun x => x.id) := by
  induction keys generalizing s with
  | nil => exact Or.inl h
  | cons x rest ih =>
    unfold killTrigKeys at h
    cases hc : mapGet s.scrollTriggers x with
    | none =>
      rw [hc] at h
      rcases ih _ h with h1 | ⟨p, hp, hpk, hpi⟩
      · exact Or.inl (by simpa using h1)
      · right
        refine ⟨p, mem_of_mem_mapDelete _ _ _ (by simpa using hp), ?_, hpi⟩
        simp [List.contains_cons]
        right
        simpa using hpk
    | some triggers =>
      rw [hc] at h
      obtain ⟨_, ost, _, _, _, _, _⟩ := killScrollTriggers_only triggers s
      by_cases hr : (killScrollTriggers triggers s).1 = true
      · simp only [hr, if_true] at h
        rcases ih _ h with h1 | ⟨p, hp, hpk, hpi⟩
        · have h2 : i ∈ ((killScrollTriggers triggers s).2).killedLog := by
            simpa using h1
          rcases killScrollTriggers_killed_subset triggers s i h2 with h3 | h3
          · exact Or.inl h3
          · exact Or.inr ⟨(x, triggers), mapGet_mem _ _ _ hc, by simp [List.contains_cons], h3⟩
        · right
          have hp' : p ∈ s.scrollTriggers := by
            have := mem_of_mem_mapDelete _ _ _ (by simpa using hp :
              p ∈ mapDelete ((killScrollTriggers triggers s).2).scrollTriggers x)
            rw [ost] at this
            exact this
          refine ⟨p, hp', ?_, hpi⟩
          simp [List.contains_cons]
          right
          simpa using hpk
      · simp only [Bool.not_eq_true] at hr
        simp only [hr, Bool.false_eq_true, if_false] at h
        rcases killScrollTriggers_killed_subset triggers s i h with h3 | h3
        · exact Or.inl h3
        · exact Or.inr ⟨(x, triggers), mapGet_mem _ _ _ hc, by simp [List.contains_cons], h3⟩

theorem contains_eq_false_iff (l : List String) (k : String) :
    l.contains k = false ↔ k ∉ l := by
  constructor
  · intro h hm
    have hc : l.contains k = true := List.elem_iff.mpr hm
    rw [h] at hc
    exact Bool.noConfusion hc
  · intro h
    by_contra hc
    exact h (List.elem_iff.mp (by simpa using hc))

/-- A key of the governing persistence set never enters a sweep list. -/
theorem sweepList_not_contains (l ps : List String) (k : String)
    (h : ps.contains k = true) :
    (l.filter (fun x => !ps.contains x)).contains k = false := by
  rw [contains_eq_false_iff]
  intro hm
  have hf := List.mem_filter.mp hm
  rw [h] at hf
  simpa using hf.2

theorem globalTriggerReconcile_only (s : ManagerState) :
    OnlyKillEffects s ((globalTriggerReconcile s).2) := by
  unfold globalTriggerReconcile
  by_cases he : s.persistentScrollTriggers.isEmpty = true
  · rw [if_pos he]
    exact killScrollTriggers_only _ _
  · rw [if_neg he]
    exact killScrollTriggers_only _ _

theorem globalTriggerReconcile_killedMono (s : ManagerState) :
    KilledMono s ((globalTriggerReconcile s).2) := by
  unfold globalTriggerReconcile
  by_cases he : s.persistentScrollTriggers.isEmpty = true
  · rw [if_pos he]
    exact killScrollTriggers_killedMono' _ _
  · rw [if_neg he]
    exact killScrollTriggers_killedMono' _ _

/-- Ids newly killed by the global reconciliation are ids of globally
registered triggers; when some trigger keys are persistent, only ids
outside the persistent-handle set are killed. -/
theorem globalTriggerReconcile_killed_subset (s : ManagerState) (i : Nat)
    (h : i ∈ ((globalTriggerReconcile s).2).killedLog) :
    i ∈ s.killedLog ∨
      (i ∈ s.globalTriggers.map (fun t => t.id) ∧
        (s.persistentScrollTriggers.isEmpty = true ∨
          (persistentTriggerIds s).contains i = false)) := by
  unfold globalTriggerReconcile at h
  by_cases he : s.persistentScrollTriggers.isEmpty = true
  · rw [if_pos he] at h
    rcases killScrollTriggers_killed_subset _ _ _ h with h1 | h1
    · exact Or.inl h1
    · exact Or.inr ⟨h1, Or.inl he⟩
  · rw [if_neg he] at h
    rcases killScrollTriggers_killed_subset _ _ _ h with h1 | h1
    · exact Or.inl h1
    · right
      rcases List.mem_map.mp h1 with ⟨t, ht, rfl⟩
      have hf := List.mem_filter.mp ht
      refine ⟨List.mem_map.mpr ⟨t, hf.1, rfl⟩, Or.inr ?_⟩
      simpa using hf.2

theorem persistentTriggerIds_foldl_mono (s : ManagerState) (l : List String)
    (acc : List Nat) (i : Nat) (h : i ∈ acc) :
    i ∈ l.foldl
      (fun acc k =>
        match mapGet s.scrollTriggers k with
        | some triggers => acc ++ triggers.map (fun t => t.id)
        | none => acc)
      acc := by
  induction l generalizing acc with
  | nil => exact h
  | cons x rest ih =>
    simp only [List.foldl_cons]
    cases hc : mapGet s.scrollTriggers x with
    | none =>
      simp only [hc]
      exact ih _ h
    | some triggers =>
      simp only [hc]
      exact ih _ (List.mem_append_left _ h)

/-- Handles stored under a persistent trigger key are in the persistent-id
set built by the global reconciliation. -/
theorem mem_persistentTriggerIds (s : ManagerState) (k : String) (ts : List Handle) (i : Nat)
    (hk : k ∈ s.persistentScrollTriggers) (hg : mapGet s.scrollTriggers k = some ts)
    (hi : i ∈ ts.map (fun t => t.id)) : i ∈ persistentTriggerIds s := by
  unfold persistentTriggerIds
  have main : ∀ (l : List String) (acc : List Nat), k ∈ l →
      i ∈ l.foldl
        (fun acc k =>
          match mapGet s.scrollTriggers k with
          | some triggers => acc ++ triggers.map (fun t => t.id)
          | none => acc)
        acc := by
    intro l
    induction l with
    | nil =>
      intro acc hm
      exact absurd hm (List.not_mem_nil k)
    | cons x rest ih =>
      intro acc hm
      rcases List.mem_cons.mp hm with rfl | hm'
      · simp only [List.foldl_cons, hg]
        exact persistentTriggerIds_foldl_mono s rest _ i (List.mem_append_right _ hi)
      · simp only [List.foldl_cons]
        cases hc : mapGet s.scrollTriggers x <;> simp only [hc] <;> exact ih _ hm'
  exact main s.persistentScrollTriggers [] hk

/-! ## Composition lemmas for `cleanupAll` -/

theorem cleanupAll_persist (s : ManagerState) :
    ((cleanupAll s).2).persistentAnimations = s.persistentAnimations ∧
      ((cleanupAll s).2).persistentScrollTriggers = s.persistentScrollTriggers := by
  unfold cleanupAll
  set c1 := cleanupAllCtxSweep s with hc1
  set c2 := cleanupAllAnimSweep c1 with hc2
  set r := cleanupAllTrigSweep c2 with hrr
  obtain ⟨_, _, p1a, p1t, _, _, _⟩ :=
    revertCtxKeys_fields ((mapKeys s.contexts).filter
      (fun k => !s.persistentAnimations.contains k)) s
  obtain ⟨_, _, p2a, p2t, _, _⟩ :=
    killAnimKeys_fields ((mapKeys c1.activeAnimations).filter
      (fun k => !c1.persistentAnimations.contains k)) c1
  obtain ⟨_, _, p3a, p3t, _, _⟩ :=
    killTrigKeys_fields ((mapKeys c2.scrollTriggers).filter
      (fun k => !c2.persistentScrollTriggers.contains k)) c2
  have hstage : (r.2).persistentAnimations = s.persistentAnimations ∧
      (r.2).persistentScrollTriggers = s.persistentScrollTriggers := by
    rw [hrr]
    unfold cleanupAllTrigSweep
    rw [p3a, p3t, hc2]
    unfold cleanupAllAnimSweep
    rw [p2a, p2t, hc1]
    unfold cleanupAllCtxSweep
    rw [p1a, p1t]
    exact ⟨rfl, rfl⟩
  by_cases hb : r.1 = true
  · rw [if_pos hb]
    obtain ⟨_, _, _, pra, prt, _, _⟩ := globalTriggerReconcile_only (r.2)
    exact ⟨pra.trans hstage.1, prt.trans hstage.2⟩
  · rw [if_neg hb]
    exact hstage

/-- `cleanupAll` keeps the animation-store and context-store entries of a
key in the animation persistence set. -/
theorem cleanupAll_persistA_lookup (s : ManagerState) (k : String)
    (hk : s.persistentAnimations.contains k = true) :
    mapGet ((cleanupAll s).2).activeAnimations k = mapGet s.activeAnimations k ∧
      mapGet ((cleanupAll s).2).contexts k = mapGet s.contexts k := by
  unfold cleanupAll
  set c1 := cleanupAllCtxSweep s with hc1
  set c2 := cleanupAllAnimSweep c1 with hc2
  set r := cleanupAllTrigSweep c2 with hrr
  obtain ⟨f1a, _, f1pa, _, _, _, _⟩ :=
    revertCtxKeys_fields ((mapKeys s.contexts).filter
      (fun k => !s.persistentAnimations.contains k)) s
  have h1ctx : mapGet c1.contexts k = mapGet s.contexts k := by
    rw [hc1]
    unfold cleanupAllCtxSweep
    exact revertCtxKeys_mapGet _ s k (sweepList_not_contains _ _ _ hk)
  have h1a : c1.activeAnimations = s.activeAnimations := by
    rw [hc1]
    unfold cleanupAllCtxSweep
    exact f1a
  have h1pa : c1.persistentAnimations = s.persistentAnimations := by
    rw [hc1]
    unfold cleanupAllCtxSweep
    exact f1pa
  obtain ⟨_, f2c, _, _, _, _⟩ :=
    killAnimKeys_fields ((mapKeys c1.activeAnimations).filter
      (fun k => !c1.persistentAnimations.contains k)) c1
  have h2a : mapGet c2.activeAnimations k = mapGet s.activeAnimations k := by
    rw [hc2]
    unfold cleanupAllAnimSweep
    rw [killAnimKeys_mapGet _ _ _ (by rw [h1pa]; exact sweepList_not_contains _ _ _ hk)]
    rw [h1a]
  have h2c : mapGet c2.contexts k = mapGet s.contexts k := by
    rw [hc2]
    unfold cleanupAllAnimSweep
    rw [f2c]
    exact h1ctx
  obtain ⟨f3a, f3c, _, _, _, _⟩ :=
    killTrigKeys_fields ((mapKeys c2.scrollTriggers).filter
      (fun k => !c2.persistentScrollTriggers.contains k)) c2
  have h3a : mapGet (r.2).activeAnimations k = mapGet s.activeAnimations k := by
    rw [hrr]
    unfold cleanupAllTrigSweep
    rw [f3a]
    exact h2a
  have h3c : mapGet (r.2).contexts k = mapGet s.contexts k := by
    rw [hrr]
    unfold cleanupAllTrigSweep
    rw [f3c]
    exact h2c
  by_cases hb : r.1 = true
  · rw [if_pos hb]
    obtain ⟨fra, _, frc, _, _, _, _⟩ := globalTriggerReconcile_only (r.2)
    constructor
    · rw [fra]
      exact h3a
    · rw [frc]
      exact h3c
  · rw [if_neg hb]
    exact ⟨h3a, h3c⟩

/-- `cleanupAll` keeps the trigger-store entry of a key in the trigger
persistence set. -/
theorem cleanupAll_persistT_lookup (s : ManagerState) (k : String)
    (hk : s.persistentScrollTriggers.contains k = true) :
    mapGet ((cleanupAll s).2).scrollTriggers k = mapGet s.scrollTriggers k := by
  unfold cleanupAll
  set c1 := cleanupAllCtxSweep s with hc1
  set c2 := cleanupAllAnimSweep c1 with hc2
  set r := cleanupAllTrigSweep c2 with hrr
  obtain ⟨_, f1st, _, f1pt, _, _, _⟩ :=
    revertCtxKeys_fields ((mapKeys s.contexts).filter
      (fun k => !s.persistentAnimations.contains k)) s
  have h1st : c1.scrollTriggers = s.scrollTriggers := by
    rw [hc1]
    unfold cleanupAllCtxSweep
    exact f1st
  have h1pt : c1.persistentScrollTriggers = s.persistentScrollTriggers := by
    rw [hc1]
    unfold cleanupAllCtxSweep
    exact f1pt
  obtain ⟨f2st, _, _, f2pt, _, _⟩ :=
    killAnimKeys_fields ((mapKeys c1.activeAnimations).filter
      (fun k => !c1.persistentAnimations.contains k)) c1
  have h2st : c2.scrollTriggers = s.scrollTriggers := by
    rw [hc2]
    unfold cleanupAllAnimSweep
    rw [f2st]
    exact h1st
  have h2pt : c2.persistentScrollTriggers = s.persistentScrollTriggers := by
    rw [hc2]
    unfold cleanupAllAnimSweep
    rw [f2pt]
    exact h1pt
  have h3st : mapGet (r.2).scrollTriggers k = mapGet s.scrollTriggers k := by
    rw [hrr]
    unfold cleanupAllTrigSweep
    rw [killTrigKeys_mapGet _ _ _ (by rw [h2pt]; exact sweepList_not_contains _ _ _ hk)]
    rw [h2st]
  by_cases hb : r.1 = true
  · rw [if_pos hb]
    obtain ⟨_, frst, _, _, _, _, _⟩ := globalTriggerReconcile_only (r.2)
    rw [frst]
    exact h3st
  · rw [if_neg hb]
    exact h3st

theorem killAnimKeys_global_subset (keys : List String) (s : ManagerState) (t : Handle)
    (h : t ∈ (killAnimKeys keys s).globalTriggers) : t ∈ s.globalTriggers := by
  induction keys generalizing s with
  | nil => exact h
  | cons x rest ih =>
    unfold killAnimKeys at h
    cases hc : mapGet s.activeAnimations x with
    | none =>
      rw [hc] at h
      simpa using ih _ h
    | some animations =>
      rw [hc] at h
      have := ih _ h
      simp only at this
      exact killAnimations_global_subset animations s t this

theorem killTrigKeys_global_subset (keys : List String) (s : ManagerState) (t : Handle)
    (h : t ∈ ((killTrigKeys keys s).2).globalTriggers) : t ∈ s.globalTriggers := by
  induction keys generalizing s with
  | nil => exact h
  | cons x rest ih =>
    unfold killTrigKeys at h
    cases hc : mapGet s.scrollTriggers x with
    | none =>
      rw [hc] at h
      simpa using ih _ h
    | some triggers =>
      rw [hc] at h
      by_cases hr : (killScrollTriggers triggers s).1 = true
      · simp only [hr, if_true] at h
        have := ih _ h
        simp only at this
        exact killScrollTriggers_global_subset triggers s t this
      · simp only [Bool.not_eq_true] at hr
        simp only [hr, Bool.false_eq_true, if_false] at h
        exact killScrollTriggers_global_subset triggers s t h

/-- The persistent-id set only depends on the persistence set and the
lookups of its keys. -/
theorem persistentTriggerIds_congr (s s' : ManagerState)
    (hp : s'.persistentScrollTriggers = s.persistentScrollTriggers)
    (hl : ∀ k ∈ s.persistentScrollTriggers,
      mapGet s'.scrollTriggers k = mapGet s.scrollTriggers k) :
    persistentTriggerIds s' = persistentTriggerIds s := by
  unfold persistentTriggerIds
  rw [hp]
  have main : ∀ (l : List String) (acc : List Nat),
      (∀ k ∈ l, mapGet s'.scrollTriggers k = mapGet s.scrollTriggers k) →
      l.foldl
        (fun acc k =>
          match mapGet s'.scrollTriggers k with
          | some triggers => acc ++ triggers.map (fun t => t.id)
          | none => acc)
        acc =
      l.foldl
        (fun acc k =>
          match mapGet s.scrollTriggers k with
          | some triggers => acc ++ triggers.map (fun t => t.id)
          | none => acc)
        acc := by
    intro l
    induction l with
    | nil => intro acc _; rfl
    | cons x rest ih =>
      intro acc hx
      simp only [List.foldl_cons]
      rw [hx x (by simp)]
      cases hc : mapGet s.scrollTriggers x <;> simp only [hc] <;>
        exact ih _ (fun k hk => hx k (by simp [hk]))
  exact main s.persistentScrollTriggers [] hl

/-- Where a kill recorded by `cleanupAll` can come from: the id belongs to
a non-persistent animation group, a non-persistent trigger group, or a
globally registered trigger outside the persistent-handle set. -/
theorem cleanupAll_killed_cases (s : ManagerState) (i : Nat)
    (h : i ∈ ((cleanupAll s).2).killedLog) :
    i ∈ s.killedLog ∨
      (∃ p, p ∈ s.activeAnimations ∧ s.persistentAnimations.contains p.1 = false ∧
        i ∈ p.2.map (fun x => x.id)) ∨
      (∃ p, p ∈ s.scrollTriggers ∧ s.persistentScrollTriggers.contains p.1 = false ∧
        i ∈ p.2.map (fun x => x.id)) ∨
      ((∃ t, t ∈ s.globalTriggers ∧ t.id = i) ∧
        (s.persistentScrollTriggers.isEmpty = true ∨
          (persistentTriggerIds s).contains i = false)) := by
  unfold cleanupAll at h
  set c1 := cleanupAllCtxSweep s with hc1
  set c2 := cleanupAllAnimSweep c1 with hc2
  set r := cleanupAllTrigSweep c2 with hrr
  obtain ⟨f1a, f1st, f1pa, f1pt, f1g, f1k, _⟩ :=
    revertCtxKeys_fields ((mapKeys s.contexts).filter
      (fun k => !s.persistentAnimations.contains k)) s
  have h1a : c1.activeAnimations = s.activeAnimations := by
    rw [hc1]; unfold cleanupAllCtxSweep; exact f1a
  have h1st : c1.scrollTriggers = s.scrollTriggers := by
    rw [hc1]; unfold cleanupAllCtxSweep; exact f1st
  have h1pa : c1.persistentAnimations = s.persistentAnimations := by
    rw [hc1]; unfold cleanupAllCtxSweep; exact f1pa
  have h1pt : c1.persistentScrollTriggers = s.persistentScrollTriggers := by
    rw [hc1]; unfold cleanupAllCtxSweep; exact f1pt
  have h1g : c1.globalTriggers = s.globalTriggers := by
    rw [hc1]; unfold cleanupAllCtxSweep; exact f1g
  have h1k : c1.killedLog = s.killedLog := by
    rw [hc1]; unfold cleanupAllCtxSweep; exact f1k
  obtain ⟨f2st, f2c, f2pa, f2pt, _, _⟩ :=
    killAnimKeys_fields ((mapKeys c1.activeAnimations).filter
      (fun k => !c1.persistentAnimations.contains k)) c1
  have h2st : c2.scrollTriggers = s.scrollTriggers := by
    rw [hc2]; unfold cleanupAllAnimSweep; rw [f2st]; exact h1st
  have h2pa : c2.persistentAnimations = s.persistentAnimations := by
    rw [hc2]; unfold cleanupAllAnimSweep; rw [f2pa]; exact h1pa
  have h2pt : c2.persistentScrollTriggers = s.persistentScrollTriggers := by
    rw [hc2]; unfold cleanupAllAnimSweep; rw [f2pt]; exact h1pt
  have h2gsub : ∀ t, t ∈ c2.globalTriggers → t ∈ s.globalTriggers := by
    intro t ht
    rw [hc2] at ht
    unfold cleanupAllAnimSweep at ht
    have := killAnimKeys_global_subset _ _ _ ht
    rw [h1g] at this
    exact this
  obtain ⟨f3a, f3c, f3pa, f3pt, _, _⟩ :=
    killTrigKeys_fields ((mapKeys c2.scrollTriggers).filter
      (fun k => !c2.persistentScrollTriggers.contains k)) c2
  have h3pt : (r.2).persistentScrollTriggers = s.persistentScrollTriggers := by
    rw [hrr]; unfold cleanupAllTrigSweep; rw [f3pt]; exact h2pt
  have h3gsub : ∀ t, t ∈ (r.2).globalTriggers → t ∈ s.globalTriggers := by
    intro t ht
    rw [hrr] at ht
    unfold cleanupAllTrigSweep at ht
    exact h2gsub t (killTrigKeys_global_subset _ _ _ ht)
  have h3lookup : ∀ k ∈ s.persistentScrollTriggers,
      mapGet (r.2).scrollTriggers k = mapGet s.scrollTriggers k := by
    intro k hk
    rw [hrr]
    unfold cleanupAllTrigSweep
    rw [killTrigKeys_mapGet _ _ _
      (by rw [h2pt]; exact sweepList_not_contains _ _ _ (List.elem_iff.mpr hk))]
    rw [h2st]
  have hids : persistentTriggerIds (r.2) = persistentTriggerIds s :=
    persistentTriggerIds_congr s (r.2) h3pt h3lookup
  have htail : i ∈ (r.2).killedLog →
      i ∈ s.killedLog ∨
        (∃ p, p ∈ s.activeAnimations ∧ s.persistentAnimations.contains p.1 = false ∧
          i ∈ p.2.map (fun x => x.id)) ∨
        (∃ p, p ∈ s.scrollTriggers ∧ s.persistentScrollTriggers.contains p.1 = false ∧
          i ∈ p.2.map (fun x => x.id)) := by
    intro hr2
    rw [hrr] at hr2
    unfold cleanupAllTrigSweep at hr2
    rcases killTrigKeys_killed_subset _ _ _ hr2 with h2 | ⟨p, hp, hpk, hpi⟩
    · rw [hc2] at h2
      unfold cleanupAllAnimSweep at h2
      rcases killAnimKeys_killed_subset _ _ _ h2 with h3 | ⟨q, hq, hqk, hqi⟩
      · left
        rw [h1k] at h3
        exact h3
      · right; left
        refine ⟨q, by rw [h1a] at hq; exact hq, ?_, hqi⟩
        have hmem := List.elem_iff.mp hqk
        have hpred := (List.mem_filter.mp hmem).2
        rw [h1pa] at hpred
        simpa using hpred
    · right; right
      refine ⟨p, by rw [h2st] at hp; exact hp, ?_, hpi⟩
      have hmem := List.elem_iff.mp hpk
      have hpred := (List.mem_filter.mp hmem).2
      rw [h2pt] at hpred
      simpa using hpred
  by_cases hb : r.1 = true
  · rw [if_pos hb] at h
    rcases globalTriggerReconcile_killed_subset (r.2) i h with h1 | ⟨hgm, hcond⟩
    · rcases htail h1 with h2 | h2 | h2
      · exact Or.inl h2
      · exact Or.inr (Or.inl h2)
      · exact Or.inr (Or.inr (Or.inl h2))
    · right; right; right
      constructor
      · rcases List.mem_map.mp hgm with ⟨t, ht, rfl⟩
        exact ⟨t, h3gsub t ht, rfl⟩
      · rcases hcond with hc | hc
        · left
          rw [h3pt] at hc
          exact hc
        · right
          rw [hids] at hc
          exact hc
  · rw [if_neg hb] at h
    rcases htail h with h2 | h2 | h2
    · exact Or.inl h2
    · exact Or.inr (Or.inl h2)
    · exact Or.inr (Or.inr (Or.inl h2))

/-! ## Lemmas on `cleanup` and its parts -/

theorem contains_setDelete_self (l : List String) (k : String) :
    (setDelete l k).contains k = false := by
  rw [contains_eq_false_iff]
  intro hm
  exact ((mem_setDelete_iff l k k).mp hm).2 rfl

theorem mapGet_isSome_of_has (m : List (String × α)) (k : String)
    (h : mapHas m k = true) : ∃ v, mapGet m k = some v := by
  unfold mapHas at h
  unfold mapGet
  induction m with
  | nil => simp at h
  | cons p t ih =>
    rw [List.any_cons] at h
    by_cases hp : (p.1 == k) = true
    · exact ⟨p.2, by simp [List.find?_cons, hp]⟩
    · have hp' : (p.1 == k) = false := by
        simpa using hp
      rw [hp', Bool.false_or] at h
      rcases ih h with ⟨v, hv⟩
      refine ⟨v, ?_⟩
      simp only [List.find?_cons, hp']
      exact hv

theorem mapHas_eq_false_of_mapGet_none (m : List (String × α)) (k : String)
    (h : mapGet m k = none) : mapHas m k = false := by
  by_contra hc
  rcases mapGet_isSome_of_has m k (by simpa using hc) with ⟨v, hv⟩
  rw [h] at hv
  exact Option.noConfusion hv

theorem cleanupCtxPart_fields (k : String) (s : ManagerState) :
    (cleanupCtxPart k s).activeAnimations = s.activeAnimations ∧
      (cleanupCtxPart k s).scrollTriggers = s.scrollTriggers ∧
      (cleanupCtxPart k s).persistentAnimations = s.persistentAnimations ∧
      (cleanupCtxPart k s).persistentScrollTriggers = s.persistentScrollTriggers ∧
      (cleanupCtxPart k s).globalTriggers = s.globalTriggers ∧
      (cleanupCtxPart k s).killedLog = s.killedLog := by
  unfold cleanupCtxPart
  cases hc : mapGet s.contexts k <;> exact ⟨rfl, rfl, rfl, rfl, rfl, rfl⟩

theorem cleanupCtxPart_mapHas (k k' : String) (s : ManagerState) :
    mapHas (cleanupCtxPart k s).contexts k' = (mapHas s.contexts k' && (k' != k)) := by
  unfold cleanupCtxPart
  cases hc : mapGet s.contexts k with
  | none =>
    by_cases hkk : k' = k
    · subst hkk
      rw [mapHas_eq_false_of_mapGet_none _ _ hc]
      simp
    · simp [bne, hkk]
  | some c =>
    by_cases hkk : k' = k
    · subst hkk
      rw [mapHas_mapDelete_self]
      simp
    · rw [mapHas_mapDelete_ne _ _ _ hkk]
      simp [bne, hkk]

theorem cleanupCtxPart_ctx_none (k : String) (s : ManagerState) :
    mapGet (cleanupCtxPart k s).contexts k = none := by
  unfold cleanupCtxPart
  cases hc : mapGet s.contexts k with
  | none => exact hc
  | some c => exact mapGet_mapDelete_self _ _

theorem cleanupAnimPart_fields (k : String) (s : ManagerState) :
    (cleanupAnimPart k s).scrollTriggers = s.scrollTriggers ∧
      (cleanupAnimPart k s).contexts = s.contexts ∧
      (cleanupAnimPart k s).persistentAnimations = s.persistentAnimations ∧
      (cleanupAnimPart k s).persistentScrollTriggers = s.persistentScrollTriggers ∧
      (cleanupAnimPart k s).revertedLog = s.revertedLog := by
  unfold cleanupAnimPart
  cases hc : mapGet s.activeAnimations k with
  | none => exact ⟨rfl, rfl, rfl, rfl, rfl⟩
  | some animations =>
    obtain ⟨_, ost, oc, opa, opt, orv, _⟩ := killAnimations_only animations s
    exact ⟨ost, oc, opa, opt, orv⟩

theorem cleanupAnimPart_mapHas (k k' : String) (s : ManagerState) :
    mapHas (cleanupAnimPart k s).activeAnimations k' =
      (mapHas s.activeAnimations k' && (k' != k)) := by
  unfold cleanupAnimPart
  cases hc : mapGet s.activeAnimations k with
  | none =>
    by_cases hkk : k' = k
    · subst hkk
      rw [mapHas_eq_false_of_mapGet_none _ _ hc]
      simp
    · simp [bne, hkk]
  | some animations =>
    obtain ⟨oa, _, _, _, _, _, _⟩ := killAnimations_only animations s
    by_cases hkk : k' = k
    · subst hkk
      rw [mapHas_mapDelete_self]
      simp
    · rw [mapHas_mapDelete_ne _ _ _ hkk, oa]
      simp [bne, hkk]

theorem cleanupAnimPart_anims_none (k : String) (s : ManagerState) :
    mapGet (cleanupAnimPart k s).activeAnimations k = none := by
  unfold cleanupAnimPart
  cases hc : mapGet s.activeAnimations k with
  | none => exact hc
  | some animations => exact mapGet_mapDelete_self _ _

theorem cleanupAnimPart_killedMono (k : String) (s : ManagerState) :
    KilledMono s (cleanupAnimPart k s) := by
  unfold cleanupAnimPart
  cases hc : mapGet s.activeAnimations k with
  | none => exact killedMono_refl s
  | some animations =>
    intro i hi
    simpa using killAnimations_killed_mono animations s i hi

theorem cleanupAnimPart_kills (k : String) (s : ManagerState) (hs : List Handle)
    (hg : mapGet s.activeAnimations k = some hs) (h : Handle) (hh : h ∈ hs)
    (ht : h.killThrows = false) : h.id ∈ (cleanupAnimPart k s).killedLog := by
  unfold cleanupAnimPart
  rw [hg]
  have : h.id ∈ (killAnimations hs s).killedLog := by
    rw [killAnimations_log]
    exact List.mem_append_right _
      (List.mem_map.mpr ⟨h, List.mem_filter.mpr ⟨hh, by simp [ht]⟩, rfl⟩)
  simpa using this

theorem cleanupScrollTriggers_fields (k : String) (force : Bool) (s : ManagerState) :
    ((cleanupScrollTriggers k force s).2).activeAnimations = s.activeAnimations ∧
      ((cleanupScrollTriggers k force s).2).contexts = s.contexts ∧
      ((cleanupScrollTriggers k force s).2).persistentAnimations = s.persistentAnimations ∧
      ((cleanupScrollTriggers k force s).2).persistentScrollTriggers =
        s.persistentScrollTriggers ∧
      ((cleanupScrollTriggers k force s).2).revertedLog = s.revertedLog := by
  unfold cleanupScrollTriggers
  by_cases hguard : (!force && s.persistentScrollTriggers.contains k) = true
  · rw [if_pos hguard]
    exact ⟨rfl, rfl, rfl, rfl, rfl⟩
  · rw [if_neg hguard]
    cases hc : mapGet s.scrollTriggers k with
    | none => exact ⟨rfl, rfl, rfl, rfl, rfl⟩
    | some triggers =>
      obtain ⟨oa, _, oc, opa, opt, orv, _⟩ := killScrollTriggers_only triggers s
      by_cases hr : (killScrollTriggers triggers s).1 = true
      · simp only [hr, if_true]
        exact ⟨oa, oc, opa, opt, orv⟩
      · simp only [Bool.not_eq_true] at hr
        simp only [hr, Bool.false_eq_true, if_false]
        exact ⟨oa, oc, opa, opt, orv⟩

theorem cleanupScrollTriggers_killedMono (k : String) (force : Bool) (s : ManagerState) :
    KilledMono s ((cleanupScrollTriggers k force s).2) := by
  unfold cleanupScrollTriggers
  by_cases hguard : (!force && s.persistentScrollTriggers.contains k) = true
  · rw [if_pos hguard]
    exact killedMono_refl s
  · rw [if_neg hguard]
    cases hc : mapGet s.scrollTriggers k with
    | none => exact killedMono_refl s
    | some triggers =>
      by_cases hr : (killScrollTriggers triggers s).1 = true
      · simp only [hr, if_true]
        intro i hi
        simpa using killScrollTriggers_killed_mono triggers s i hi
      · simp only [Bool.not_eq_true] at hr
        simp only [hr, Bool.false_eq_true, if_false]
        exact killScrollTriggers_killedMono' triggers s

/-- Forced trigger cleanup of a key whose stored handles do not throw:
completes, removes the entry and kills every stored handle. -/
theorem cleanupScrollTriggers_force_spec (k : String) (s : ManagerState)
    (hnt : ∀ ts, mapGet s.scrollTriggers k = some ts → ∀ h ∈ ts, h.killThrows = false) :
    (cleanupScrollTriggers k true s).1 = true ∧
      mapGet ((cleanupScrollTriggers k true s).2).scrollTriggers k = none ∧
      (∀ ts, mapGet s.scrollTriggers k = some ts → ∀ h ∈ ts,
        h.id ∈ ((cleanupScrollTriggers k true s).2).killedLog) := by
  unfold cleanupScrollTriggers
  simp only [Bool.not_true, Bool.false_and, Bool.false_eq_true, if_false]
  cases hc : mapGet s.scrollTriggers k with
  | none =>
    refine ⟨rfl, hc, ?_⟩
    intro ts hts
    exact absurd hts (by simp)
  | some triggers =>
    have hnt' := hnt triggers hc
    have hok := killScrollTriggers_noThrow triggers s hnt'
    simp only [hok.1, if_true]
    refine ⟨by trivial, mapGet_mapDelete_self _ _, ?_⟩
    intro ts hts h hh
    cases hts
    have hmem : h.id ∈ ((killScrollTriggers triggers s).2).killedLog := by
      rw [hok.2]
      exact List.mem_append_right _ (List.mem_map.mpr ⟨h, hh, rfl⟩)
    exact hmem

/-- Non-forced cleanup of a persistent key is a complete no-op. -/
theorem cleanup_persistent_noop (k : String) (s : ManagerState)
    (h : isPersistent k s = true) : cleanup k false s = (true, s) := by
  unfold cleanup
  rw [if_pos (by simp [h])]

/-- Forced cleanup of a key: completes (when the key's stored trigger
handles do not throw), removes the key from all three stores and both
persistence sets, kills every stored trigger handle and every non-throwing
stored animation handle under the key. -/
theorem cleanup_force_spec (k : String) (s : ManagerState)
    (hnt : ∀ ts, mapGet s.scrollTriggers k = some ts → ∀ h ∈ ts, h.killThrows = false) :
    (cleanup k true s).1 = true ∧
      mapGet ((cleanup k true s).2).activeAnimations k = none ∧
      mapGet ((cleanup k true s).2).contexts k = none ∧
      mapGet ((cleanup k true s).2).scrollTriggers k = none ∧
      ((cleanup k true s).2).persistentAnimations.contains k = false ∧
      ((cleanup k true s).2).persistentScrollTriggers.contains k = false ∧
      (∀ hs, mapGet s.activeAnimations k = some hs → ∀ h ∈ hs, h.killThrows = false →
        h.id ∈ ((cleanup k true s).2).killedLog) ∧
      (∀ ts, mapGet s.scrollTriggers k = some ts → ∀ h ∈ ts,
        h.id ∈ ((cleanup k true s).2).killedLog) := by
  unfold cleanup
  simp only [Bool.not_true, Bool.false_and, Bool.false_eq_true, if_false]
  set m := cleanupAnimPart k (cleanupCtxPart k s) with hm
  obtain ⟨c1a, c1st, c1pa, c1pt, c1g, c1k⟩ := cleanupCtxPart_fields k s
  obtain ⟨a2st, a2c, a2pa, a2pt, a2rv⟩ := cleanupAnimPart_fields k (cleanupCtxPart k s)
  have hmst : m.scrollTriggers = s.scrollTriggers := by
    rw [hm, a2st, c1st]
  have hntm : ∀ ts, mapGet m.scrollTriggers k = some ts → ∀ h ∈ ts, h.killThrows = false := by
    rw [hmst]
    exact hnt
  have hcst := cleanupScrollTriggers_force_spec k m hntm
  obtain ⟨cstA, cstC, cstPA, cstPT, _⟩ := cleanupScrollTriggers_fields k true m
  simp only [hcst.1, if_true]
  have hmono : KilledMono m ((cleanupScrollTriggers k true m).2) :=
    cleanupScrollTriggers_killedMono k true m
  refine ⟨by trivial, ?_, ?_, ?_, ?_, ?_, ?_, ?_⟩
  · have hr : mapGet ((cleanupScrollTriggers k true m).2).activeAnimations k = none := by
      rw [cstA, hm]
      exact cleanupAnimPart_anims_none _ _
    exact hr
  · have hr : mapGet ((cleanupScrollTriggers k true m).2).contexts k = none := by
      rw [cstC, hm, a2c]
      exact cleanupCtxPart_ctx_none _ _
    exact hr
  · exact hcst.2.1
  · have hr : (setDelete ((cleanupScrollTriggers k true m).2).persistentAnimations k).contains k
        = false := contains_setDelete_self _ _
    exact hr
  · have hr : (setDelete ((cleanupScrollTriggers k true m).2).persistentScrollTriggers k).contains k
        = false := contains_setDelete_self _ _
    exact hr
  · intro hs hg h hh ht
    have h1 : h.id ∈ m.killedLog := by
      rw [hm]
      exact cleanupAnimPart_kills k (cleanupCtxPart k s) hs (by rw [c1a]; exact hg) h hh ht
    exact hmono _ h1
  · intro ts hts h hh
    exact hcst.2.2 ts (by rw [hmst]; exact hts) h hh

/-- `cleanup` preserves the invariant that every context key has an
animation-store entry — on every branch, including an aborted trigger
kill. -/
theorem cleanup_preserves_ctxSub (k : String) (force : Bool) (s : ManagerState)
    (hinv : ∀ x, mapHas s.contexts x = true → mapHas s.activeAnimations x = true)
    (x : String) (hc : mapHas ((cleanup k force s).2).contexts x = true) :
    mapHas ((cleanup k force s).2).activeAnimations x = true := by
  unfold cleanup at hc ⊢
  by_cases hguard : (!force && isPersistent k s) = true
  · rw [if_pos hguard] at hc ⊢
    exact hinv x hc
  · rw [if_neg hguard] at hc ⊢
    set m := cleanupAnimPart k (cleanupCtxPart k s) with hm
    obtain ⟨c1a, _, _, _, _, _⟩ := cleanupCtxPart_fields k s
    obtain ⟨_, a2c, _, _, _⟩ := cleanupAnimPart_fields k (cleanupCtxPart k s)
    obtain ⟨cstA, cstC, _, _, _⟩ := cleanupScrollTriggers_fields k force m
    have core : mapHas ((cleanupScrollTriggers k force m).2).contexts x = true →
        mapHas ((cleanupScrollTriggers k force m).2).activeAnimations x = true := by
      intro hcc
      rw [cstC, hm, a2c, cleanupCtxPart_mapHas] at hcc
      have h1 := (Bool.and_eq_true_iff.mp hcc).1
      have h2 := (Bool.and_eq_true_iff.mp hcc).2
      rw [cstA, hm, cleanupAnimPart_mapHas, c1a, hinv x h1, h2]
      rfl
    by_cases hb : (cleanupScrollTriggers k force m).1 = true
    · rw [if_pos hb] at hc ⊢
      by_cases hf : force = true
      · subst hf
        simp only [if_true] at hc ⊢
        have hc' : mapHas ((cleanupScrollTriggers k true m).2).contexts x = true := by
          simpa [removePersistence] using hc
        have hr := core hc'
        simpa [removePersistence] using hr
      · simp only [Bool.not_eq_true] at hf
        subst hf
        simp only [Bool.false_eq_true, if_false] at hc ⊢
        exact core hc
    · rw [if_neg hb] at hc ⊢
      exact core hc

/-- `cleanupAll` preserves the invariant that every context key has an
animation-store entry: both sweeps are governed by the same animation
persistence set. -/
theorem cleanupAll_preserves_ctxSub (s : ManagerState)
    (hinv : ∀ x, mapHas s.contexts x = true → mapHas s.activeAnimations x = true)
    (x : String) (hc : mapHas ((cleanupAll s).2).contexts x = true) :
    mapHas ((cleanupAll s).2).activeAnimations x = true := by
  unfold cleanupAll at hc ⊢
  set c1 := cleanupAllCtxSweep s with hc1
  set c2 := cleanupAllAnimSweep c1 with hc2
  set r := cleanupAllTrigSweep c2 with hrr
  obtain ⟨f1a, _, f1pa, _, _, _, _⟩ :=
    revertCtxKeys_fields ((mapKeys s.contexts).filter
      (fun k => !s.persistentAnimations.contains k)) s
  obtain ⟨_, f2c, _, _, _, _⟩ :=
    killAnimKeys_fields ((mapKeys c1.activeAnimations).filter
      (fun k => !c1.persistentAnimations.contains k)) c1
  obtain ⟨f3a, f3c, _, _, _, _⟩ :=
    killTrigKeys_fields ((mapKeys c2.scrollTriggers).filter
      (fun k => !c2.persistentScrollTriggers.contains k)) c2
  have h1a : c1.activeAnimations = s.activeAnimations := by
    rw [hc1]; unfold cleanupAllCtxSweep; exact f1a
  have h1pa : c1.persistentAnimations = s.persistentAnimations := by
    rw [hc1]; unfold cleanupAllCtxSweep; exact f1pa
  have hr2c : (r.2).contexts = c1.contexts := by
    rw [hrr]
    unfold cleanupAllTrigSweep
    rw [f3c, hc2]
    unfold cleanupAllAnimSweep
    exact f2c
  have core : mapHas ((r.2)).contexts x = true → mapHas ((r.2)).activeAnimations x = true := by
    intro hcc
    rw [hr2c, hc1] at hcc
    unfold cleanupAllCtxSweep at hcc
    obtain ⟨hs1, hs2⟩ := revertCtxKeys_mapHas _ _ _ hcc
    have hxk : x ∈ mapKeys s.contexts := (mapHas_iff_mem_keys _ _).mp hs1
    have hpa : s.persistentAnimations.contains x = true := by
      by_contra hcp
      have hcp' : s.persistentAnimations.contains x = false := by
        simpa using hcp
      have : x ∈ (mapKeys s.contexts).filter (fun k => !s.persistentAnimations.contains k) :=
        List.mem_filter.mpr ⟨hxk, by rw [hcp']; rfl⟩
      rw [contains_eq_false_iff] at hs2
      exact hs2 this
    rcases mapGet_isSome_of_has s.activeAnimations x (hinv x hs1) with ⟨v, hv⟩
    have hc2get : mapGet c2.activeAnimations x = some v := by
      rw [hc2]
      unfold cleanupAllAnimSweep
      rw [killAnimKeys_mapGet _ _ _ (by rw [h1pa]; exact sweepList_not_contains _ _ _ hpa)]
      rw [h1a]
      exact hv
    have hr2a : (r.2).activeAnimations = c2.activeAnimations := by
      rw [hrr]
      unfold cleanupAllTrigSweep
      exact f3a
    rw [hr2a]
    exact mapHas_of_mapGet_eq_some _ _ _ hc2get
  by_cases hb : r.1 = true
  · rw [if_pos hb] at hc ⊢
    obtain ⟨fra, _, frc, _, _, _, _⟩ := globalTriggerReconcile_only (r.2)
    rw [frc] at hc
    rw [fra]
    exact core hc
  · rw [if_neg hb] at hc ⊢
    exact core hc

/-! ## Remaining structural helper lemmas -/

theorem mapSet_map_any (m : List (String × α)) (k k' : String) (v : α) (h : k' ≠ k) :
    ((m.map (fun p => if p.1 == k then (k, v) else p)).any fun p => p.1 == k') =
      (m.any fun p => p.1 == k') := by
  induction m with
  | nil => rfl
  | cons p t ih =>
    simp only [List.map_cons, List.any_cons]
    by_cases hp : (p.1 == k) = true
    · have hpk : p.1 = k := by
        simpa using hp
      have e1 : (((k, v) : String × α).1 == k') = false := by
        simp [Ne.symm h]
      have e2 : (p.1 == k') = false := by
        simp [hpk, Ne.symm h]
      rw [if_pos hp, e1, e2, ih]
    · rw [if_neg hp, ih]

theorem mapHas_mapSet_ne (m : List (String × α)) (k k' : String) (v : α) (h : k' ≠ k) :
    mapHas (mapSet m k v) k' = mapHas m k' := by
  unfold mapSet
  by_cases hm : mapHas m k = true
  · rw [if_pos hm]
    exact mapSet_map_any m k k' v h
  · rw [if_neg hm]
    unfold mapHas
    rw [List.any_append]
    have hs : ((([(k, v)] : List (String × α))).any fun p => p.1 == k') = false := by
      simp [Ne.symm h]
    rw [hs, Bool.or_false]

theorem mapHas_mapSet_mono (m : List (String × α)) (k k' : String) (v : α)
    (h : mapHas m k' = true) : mapHas (mapSet m k v) k' = true := by
  by_cases hk : k' = k
  · subst hk
    exact mapHas_mapSet_self m k' v
  · rw [mapHas_mapSet_ne m k k' v hk]
    exact h

theorem mapHas_mapSet_cases (m : List (String × α)) (k k' : String) (v : α)
    (h : mapHas (mapSet m k v) k' = true) : k' = k ∨ mapHas m k' = true := by
  by_cases hk : k' = k
  · exact Or.inl hk
  · rw [mapHas_mapSet_ne m k k' v hk] at h
    exact Or.inr h

theorem killAnimKeys_mem (keys : List String) (s : ManagerState) (p : String × List Handle)
    (h : p ∈ (killAnimKeys keys s).activeAnimations) : p ∈ s.activeAnimations := by
  induction keys generalizing s with
  | nil => exact h
  | cons x rest ih =>
    unfold killAnimKeys at h
    cases hc : mapGet s.activeAnimations x with
    | none =>
      rw [hc] at h
      exact mem_of_mem_mapDelete _ _ _ (by simpa using ih _ h)
    | some animations =>
      rw [hc] at h
      obtain ⟨oa, _, _, _, _, _, _⟩ := killAnimations_only animations s
      have := ih _ h
      simp only at this
      have := mem_of_mem_mapDelete _ _ _ this
      rw [oa] at this
      exact this

theorem cleanupAnimPart_mem (k : String) (s : ManagerState) (p : String × List Handle)
    (h : p ∈ (cleanupAnimPart k s).activeAnimations) : p ∈ s.activeAnimations := by
  unfold cleanupAnimPart at h
  cases hc : mapGet s.activeAnimations k with
  | none =>
    rw [hc] at h
    exact h
  | some animations =>
    rw [hc] at h
    obtain ⟨oa, _, _, _, _, _, _⟩ := killAnimations_only animations s
    have := mem_of_mem_mapDelete _ _ _ h
    rw [oa] at this
    exact this

theorem cleanupScrollTriggers_mem_st (k : String) (force : Bool) (s : ManagerState)
    (p : String × List Handle)
    (h : p ∈ ((cleanupScrollTriggers k force s).2).scrollTriggers) :
    p ∈ s.scrollTriggers := by
  unfold cleanupScrollTriggers at h
  by_cases hguard : (!force && s.persistentScrollTriggers.contains k) = true
  · rw [if_pos hguard] at h
    exact h
  · rw [if_neg hguard] at h
    cases hc : mapGet s.scrollTriggers k with
    | none =>
      rw [hc] at h
      exact h
    | some triggers =>
      rw [hc] at h
      obtain ⟨_, ost, _, _, _, _, _⟩ := killScrollTriggers_only triggers s
      by_cases hr : (killScrollTriggers triggers s).1 = true
      · simp only [hr, if_true] at h
        have := mem_of_mem_mapDelete _ _ _ h
        rw [ost] at this
        exact this
      · simp only [Bool.not_eq_true] at hr
        simp only [hr, Bool.false_eq_true, if_false] at h
        rw [ost] at h
        exact h

/-- `refresh` touches only the refresh log. -/
theorem refresh_fields (keys : Option (List String)) (s : ManagerState) :
    (refresh keys s).activeAnimations = s.activeAnimations ∧
      (refresh keys s).scrollTriggers = s.scrollTriggers ∧
      (refresh keys s).contexts = s.contexts ∧
      (refresh keys s).persistentAnimations = s.persistentAnimations ∧
      (refresh keys s).persistentScrollTriggers = s.persistentScrollTriggers ∧
      (refresh keys s).globalTriggers = s.globalTriggers ∧
      (refresh keys s).killedLog = s.killedLog ∧
      (refresh keys s).revertedLog = s.revertedLog := by
  cases keys with
  | none => exact ⟨rfl, rfl, rfl, rfl, rfl, rfl, rfl, rfl⟩
  | some ks =>
    unfold refresh
    induction ks generalizing s with
    | nil => exact ⟨rfl, rfl, rfl, rfl, rfl, rfl, rfl, rfl⟩
    | cons x rest ih =>
      simp only [List.foldl_cons]
      cases hc : mapGet s.scrollTriggers x with
      | none =>
        simp only [hc]
        exact ih s
      | some triggers =>
        simp only [hc]
        exact ih _

/-- After `forceCleanupAll` — even when aborted by a throwing trigger
`kill()` — the context and animation stores are empty and any surviving
trigger entry was present initially. -/
theorem forceCleanupAll_stores (s : ManagerState) :
    ((forceCleanupAll s).2).contexts = [] ∧
      ((forceCleanupAll s).2).activeAnimations = [] ∧
      (∀ p, p ∈ ((forceCleanupAll s).2).scrollTriggers → p ∈ s.scrollTriggers) := by
  unfold forceCleanupAll
  set s1 := forceStage1 s with hs1
  set s2 := forceStage2 s1 with hs2
  obtain ⟨o2a, o2st, o2c, _, _, _, _⟩ := killAllAnimGroups_only s1.activeAnimations s1
  obtain ⟨o3a, o3st, o3c, _, _, _, _⟩ := killAllTrigGroups_only s2.scrollTriggers s2
  have h2a : s2.activeAnimations = [] := by
    rw [hs2]
    unfold forceStage2
    rfl
  have h2c : s2.contexts = [] := by
    rw [hs2]
    unfold forceStage2
    refine o2c.trans ?_
    rw [hs1]
    unfold forceStage1
    rfl
  have h2st : s2.scrollTriggers = s.scrollTriggers := by
    rw [hs2]
    unfold forceStage2
    refine o2st.trans ?_
    rw [hs1]
    unfold forceStage1
    rw [revertAllCtx_eq]
  by_cases hb : (killAllTrigGroups s2.scrollTriggers s2).1 = true
  · rw [if_pos hb]
    set s3 := forceStage3 ((killAllTrigGroups s2.scrollTriggers s2).2) with hs3
    obtain ⟨ofa, ofst, ofc, _, _, _, _⟩ := killScrollTriggers_only s3.globalTriggers s3
    have h3c : s3.contexts = [] := by
      rw [hs3]
      unfold forceStage3
      exact o3c.trans h2c
    have h3a : s3.activeAnimations = [] := by
      rw [hs3]
      unfold forceStage3
      exact o3a.trans h2a
    have h3st : s3.scrollTriggers = [] := by
      rw [hs3]
      unfold forceStage3
      rfl
    refine ⟨ofc.trans h3c, ofa.trans h3a, ?_⟩
    intro p hp
    rw [ofst, h3st] at hp
    exact absurd hp (List.not_mem_nil p)
  · rw [if_neg hb]
    refine ⟨o3c.trans h2c, o3a.trans h2a, ?_⟩
    intro p hp
    simp only at hp
    rw [o3st, h2st] at hp
    exact hp

/-- `cleanupAll` never adds store entries. -/
theorem cleanupAll_mem (s : ManagerState) :
    (∀ p, p ∈ ((cleanupAll s).2).activeAnimations → p ∈ s.activeAnimations) ∧
      (∀ p, p ∈ ((cleanupAll s).2).scrollTriggers → p ∈ s.scrollTriggers) := by
  unfold cleanupAll
  set c1 := cleanupAllCtxSweep s with hc1
  set c2 := cleanupAllAnimSweep c1 with hc2
  set r := cleanupAllTrigSweep c2 with hrr
  obtain ⟨f1a, f1st, _, _, _, _, _⟩ :=
    revertCtxKeys_fields ((mapKeys s.contexts).filter
      (fun k => !s.persistentAnimations.contains k)) s
  obtain ⟨f2st, _, _, _, _, _⟩ :=
    killAnimKeys_fields ((mapKeys c1.activeAnimations).filter
      (fun k => !c1.persistentAnimations.contains k)) c1
  obtain ⟨f3a, _, _, _, _, _⟩ :=
    killTrigKeys_fields ((mapKeys c2.scrollTriggers).filter
      (fun k => !c2.persistentScrollTriggers.contains k)) c2
  have hra : ∀ p, p ∈ (r.2).activeAnimations → p ∈ s.activeAnimations := by
    intro p hp
    rw [hrr] at hp
    unfold cleanupAllTrigSweep at hp
    rw [f3a, hc2] at hp
    unfold cleanupAllAnimSweep at hp
    have := killAnimKeys_mem _ _ _ hp
    rw [hc1] at this
    unfold cleanupAllCtxSweep at this
    rw [f1a] at this
    exact this
  have hrst : ∀ p, p ∈ (r.2).scrollTriggers → p ∈ s.scrollTriggers := by
    intro p hp
    rw [hrr] at hp
    unfold cleanupAllTrigSweep at hp
    have := killTrigKeys_mem _ _ _ hp
    rw [hc2] at this
    unfold cleanupAllAnimSweep at this
    rw [f2st, hc1] at this
    unfold cleanupAllCtxSweep at this
    rw [f1st] at this
    exact this
  by_cases hb : r.1 = true
  · rw [if_pos hb]
    obtain ⟨fra, frst, _, _, _, _, _⟩ := globalTriggerReconcile_only (r.2)
    constructor
    · intro p hp
      rw [fra] at hp
      exact hra p hp
    · intro p hp
      rw [frst] at hp
      exact hrst p hp
  · rw [if_neg hb]
    exact ⟨hra, hrst⟩

/-- `cleanup` never adds store entries. -/
theorem cleanup_mem (k : String) (force : Bool) (s : ManagerState) :
    (∀ p, p ∈ ((cleanup k force s).2).activeAnimations → p ∈ s.activeAnimations) ∧
      (∀ p, p ∈ ((cleanup k force s).2).scrollTriggers → p ∈ s.scrollTriggers) := by
  unfold cleanup
  by_cases hguard : (!force && isPersistent k s) = true
  · rw [if_pos hguard]
    exact ⟨fun p hp => hp, fun p hp => hp⟩
  · rw [if_neg hguard]
    set m := cleanupAnimPart k (cleanupCtxPart k s) with hm
    obtain ⟨c1a, c1st, _, _, _, _⟩ := cleanupCtxPart_fields k s
    obtain ⟨a2st, _, _, _, _⟩ := cleanupAnimPart_fields k (cleanupCtxPart k s)
    obtain ⟨cstA, _, _, _, _⟩ := cleanupScrollTriggers_fields k force m
    have ha : ∀ p, p ∈ ((cleanupScrollTriggers k force m).2).activeAnimations →
        p ∈ s.activeAnimations := by
      intro p hp
      rw [cstA, hm] at hp
      have := cleanupAnimPart_mem _ _ _ hp
      rw [c1a] at this
      exact this
    have hst : ∀ p, p ∈ ((cleanupScrollTriggers k force m).2).scrollTriggers →
        p ∈ s.scrollTriggers := by
      intro p hp
      have := cleanupScrollTriggers_mem_st _ _ _ _ hp
      rw [hm, a2st, c1st] at this
      exact this
    by_cases hb : (cleanupScrollTriggers k force m).1 = true
    · rw [if_pos hb]
      by_cases hf : force = true
      · subst hf
        simp only [if_true]
        constructor
        · intro p hp
          simp only [removePersistence] at hp
          exact ha p hp
        · intro p hp
          simp only [removePersistence] at hp
          exact hst p hp
      · simp only [Bool.not_eq_true] at hf
        subst hf
        simp only [Bool.false_eq_true, if_false]
        exact ⟨ha, hst⟩
    · rw [if_neg hb]
      exact ⟨ha, hst⟩

/-- A completed `killScrollTriggers` batch had no throwing handle. -/
theorem killScrollTriggers_ok (L : List Handle) (s : ManagerState)
    (h : (killScrollTriggers L s).1 = true) : ∀ x ∈ L, x.killThrows = false := by
  induction L generalizing s with
  | nil =>
    intro x hx
    exact absurd hx (List.not_mem_nil x)
  | cons y t ih =>
    unfold killScrollTriggers killHandle at h
    by_cases ht : y.killThrows
    · simp [ht] at h
    · intro x hx
      rcases List.mem_cons.mp hx with rfl | hx'
      · simpa using ht
      · simp only [ht, Bool.false_eq_true, if_false, if_true] at h
        exact ih _ h x hx'

/-! ## Claim theorems -/

/-- C4: in every state, when `forceCleanupAll()` returns (normally — an
uncaught trigger `kill()` exception means it does not return), the
animation, trigger and context stores are empty, both persistence sets are
empty, the trigger engine's global registry is empty, and every handle
that was globally registered has been killed — regardless of which keys
were marked persistent beforehand. -/
theorem claimC4_forceCleanupAll_total (s : ManagerState)
    (hret : (forceCleanupAll s).1 = true) :
    ((forceCleanupAll s).2).activeAnimations = [] ∧
      ((forceCleanupAll s).2).scrollTriggers = [] ∧
      ((forceCleanupAll s).2).contexts = [] ∧
      ((forceCleanupAll s).2).persistentAnimations = [] ∧
      ((forceCleanupAll s).2).persistentScrollTriggers = [] ∧
      ((forceCleanupAll s).2).globalTriggers = [] ∧
      (∀ t ∈ s.globalTriggers, t.id ∈ ((forceCleanupAll s).2).killedLog) := by
  unfold forceCleanupAll at hret ⊢
  set s1 := forceStage1 s with hs1
  set s2 := forceStage2 s1 with hs2
  by_cases hb : (killAllTrigGroups s2.scrollTriggers s2).1 = true
  · rw [if_pos hb] at hret ⊢
    set s3 := forceStage3 ((killAllTrigGroups s2.scrollTriggers s2).2) with hs3
    have hg3 : ∀ x ∈ s3.globalTriggers, x.killThrows = false :=
      killScrollTriggers_ok _ _ hret
    have hfing : ((killScrollTriggers s3.globalTriggers s3).2).globalTriggers = [] :=
      killScrollTriggers_global_clear _ _ (fun t ht => List.mem_map.mpr ⟨t, ht, rfl⟩) hg3
    obtain ⟨o2a, o2st, o2c, _, _, _, _⟩ := killAllAnimGroups_only s1.activeAnimations s1
    obtain ⟨o3a, o3st, o3c, _, _, _, _⟩ := killAllTrigGroups_only s2.scrollTriggers s2
    obtain ⟨ofa, ofst, ofc, ofpa, ofpt, _, _⟩ := killScrollTriggers_only s3.globalTriggers s3
    have h2a : s2.activeAnimations = [] := by
      rw [hs2]
      unfold forceStage2
      rfl
    have h2c : s2.contexts = [] := by
      rw [hs2]
      unfold forceStage2
      refine o2c.trans ?_
      rw [hs1]
      unfold forceStage1
      rfl
    have h3a : s3.activeAnimations = [] := by
      rw [hs3]
      unfold forceStage3
      exact o3a.trans h2a
    have h3st : s3.scrollTriggers = [] := by
      rw [hs3]
      unfold forceStage3
      rfl
    have h3c : s3.contexts = [] := by
      rw [hs3]
      unfold forceStage3
      exact o3c.trans h2c
    have h3pa : s3.persistentAnimations = [] := by
      rw [hs3]
      unfold forceStage3
      rfl
    have h3pt : s3.persistentScrollTriggers = [] := by
      rw [hs3]
      unfold forceStage3
      rfl
    have h1g : s1.globalTriggers = s.globalTriggers := by
      rw [hs1]
      unfold forceStage1
      rw [revertAllCtx_eq]
    have hm12 : KilledMono s1 s2 := by
      intro i hi
      rw [hs2]
      unfold forceStage2
      exact killAllAnimGroups_killedMono s1.activeAnimations s1 i hi
    have hm23 : KilledMono s2 s3 := by
      intro i hi
      rw [hs3]
      unfold forceStage3
      exact killAllTrigGroups_killedMono s2.scrollTriggers s2 i hi
    have hm3f : KilledMono s3 ((killScrollTriggers s3.globalTriggers s3).2) :=
      killScrollTriggers_killedMono' s3.globalTriggers s3
    have hga : ∀ t ∈ s.globalTriggers,
        t.id ∈ ((killScrollTriggers s3.globalTriggers s3).2).killedLog := by
      intro t ht
      have hga1 : GlobalAccounted s s1 := by
        intro u hu
        rw [h1g]
        exact Or.inl hu
      have hga2 : GlobalAccounted s1 s2 := by
        intro u hu
        rw [hs2]
        unfold forceStage2
        exact killAllAnimGroups_globalAccounted s1.activeAnimations s1 u hu
      have hga3 : GlobalAccounted s2 s3 := by
        intro u hu
        rw [hs3]
        unfold forceStage3
        exact killAllTrigGroups_globalAccounted s2.scrollTriggers s2 u hu
      have hgaf : GlobalAccounted s3 ((killScrollTriggers s3.globalTriggers s3).2) :=
        killScrollTriggers_globalAccounted s3.globalTriggers s3
      have hall := globalAccounted_trans
        (globalAccounted_trans (globalAccounted_trans hga1 hga2 hm12) hga3 hm23)
        hgaf hm3f
      rcases hall t ht with h | h
      · rw [hfing] at h
        exact absurd h (List.not_mem_nil t)
      · exact h
    exact ⟨ofa.trans h3a, ofst.trans h3st, ofc.trans h3c, ofpa.trans h3pa,
      ofpt.trans h3pt, hfing, hga⟩
  · rw [if_neg hb] at hret
    exact absurd hret (by simp)

/-- C4 witness: a state holding a persistent animation, a persistent
trigger key with a stored trigger, and an extra unmanaged global trigger,
on which `forceCleanupAll` returns and empties everything. -/
theorem claimC4_forceCleanupAll_total_witness :
    (forceCleanupAll
        { emptyState with
          activeAnimations := [("a", [{ id := 1, killThrows := false }])]
          scrollTriggers := [("t", [{ id := 2, killThrows := false }])]
          persistentAnimations := ["a"]
          persistentScrollTriggers := ["t"]
          globalTriggers := [{ id := 2, killThrows := false }, { id := 3, killThrows := false }] }).1
      = true ∧
    ((forceCleanupAll
        { emptyState with
          activeAnimations := [("a", [{ id := 1, killThrows := false }])]
          scrollTriggers := [("t", [{ id := 2, killThrows := false }])]
          persistentAnimations := ["a"]
          persistentScrollTriggers := ["t"]
          globalTriggers := [{ id := 2, killThrows := false }, { id := 3, killThrows := false }] }).2).globalTriggers
      = [] := by
  refine ⟨by decide, ?_⟩
  exact (claimC4_forceCleanupAll_total _ (by decide)).2.2.2.2.2.1

/-- C1 counterexample: a trigger group whose first handle's `kill()` throws.
`cleanup('k', force := true)` propagates the exception to the caller
(result flag `false`), never invokes `kill()` on the remaining handle
(id 2 is not in the kill log), and even leaves the entry in the store —
refuting the claim that every teardown operation catches per-handle
`kill()` failures for trigger handles. -/
theorem claimC1_counterexample :
    (cleanup "k" true
        { emptyState with
          scrollTriggers := [("k", [{ id := 1, killThrows := true },
            { id := 2, killThrows := false }])] }).1 = false ∧
      2 ∉ ((cleanup "k" true
        { emptyState with
          scrollTriggers := [("k", [{ id := 1, killThrows := true },
            { id := 2, killThrows := false }])] }).2).killedLog ∧
      mapHas ((cleanup "k" true
        { emptyState with
          scrollTriggers := [("k", [{ id := 1, killThrows := true },
            { id := 2, killThrows := false }])] }).2).scrollTriggers "k" = true := by
  decide

/-- C1 (amended): per-handle `kill()` failures are caught — and the rest of
the batch still killed — only for animation handles (`killAnimations`);
for trigger handles (`killScrollTriggers`) there is no catch: a batch with
no throwing handle completes and kills all of it, but the first throwing
handle propagates the exception and the handles after it are not killed. -/
theorem claimC1_amended_kill_semantics :
    (∀ (hs : List Handle) (s : ManagerState) (h : Handle), h ∈ hs →
      h.killThrows = false → h.id ∈ (killAnimations hs s).killedLog) ∧
    (∀ (hs : List Handle) (s : ManagerState), (∀ x ∈ hs, x.killThrows = false) →
      (killScrollTriggers hs s).1 = true ∧
        ((killScrollTriggers hs s).2).killedLog = s.killedLog ++ hs.map (fun x => x.id)) ∧
    (∀ (pre : List Handle) (bad : Handle) (rest : List Handle) (s : ManagerState),
      (∀ x ∈ pre, x.killThrows = false) → bad.killThrows = true →
      (killScrollTriggers (pre ++ bad :: rest) s).1 = false ∧
        ((killScrollTriggers (pre ++ bad :: rest) s).2).killedLog =
          s.killedLog ++ pre.map (fun x => x.id)) := by
  refine ⟨?_, killScrollTriggers_noThrow, killScrollTriggers_throw⟩
  intro hs s h hh ht
  rw [killAnimations_log]
  exact List.mem_append_right _
    (List.mem_map.mpr ⟨h, List.mem_filter.mpr ⟨hh, by simp [ht]⟩, rfl⟩)

/-- C1 amended witness: an animation batch with a throwing first handle
still kills the second; the same trigger batch throws after killing
nothing. -/
theorem claimC1_amended_kill_semantics_witness :
    2 ∈ (killAnimations [{ id := 1, killThrows := true },
        { id := 2, killThrows := false }] emptyState).killedLog ∧
      (killScrollTriggers [{ id := 1, killThrows := true },
        { id := 2, killThrows := false }] emptyState).1 = false := by
  constructor
  · exact claimC1_amended_kill_semantics.1 _ emptyState
      { id := 2, killThrows := false } (by decide) rfl
  · exact (claimC1_amended_kill_semantics.2.2 []
      { id := 1, killThrows := true } [{ id := 2, killThrows := false }] emptyState
      (fun x hx => absurd hx (List.not_mem_nil x)) rfl).1

/-- `register` on an occupied key (animation store or context store) is a
complete no-op. -/
theorem register_occupied_noop (k : String) (a : AnimArg) (o : AnimationOptions)
    (s : ManagerState)
    (h : mapHas s.activeAnimations k = true ∨ mapHas s.contexts k = true) :
    register k a o s = s := by
  unfold register
  rcases h with h | h <;> simp [h]

/-- After any `register` call the key occupies the animation store or the
context store. -/
theorem register_occupied_after (k : String) (a : AnimArg) (o : AnimationOptions)
    (s : ManagerState) :
    mapHas (register k a o s).activeAnimations k = true ∨
      mapHas (register k a o s).contexts k = true := by
  unfold register
  by_cases hg : (!mapHas s.activeAnimations k && !mapHas s.contexts k) = true
  · rw [if_pos hg]
    left
    by_cases hp : o.persist = true
    · simp only [hp, if_true]
      exact mapHas_mapSet_self _ _ _
    · simp only [Bool.not_eq_true] at hp
      simp only [hp, Bool.false_eq_true, if_false]
      exact mapHas_mapSet_self _ _ _
  · rw [if_neg hg]
    have := hg
    simp only [Bool.and_eq_true, Bool.not_eq_true', not_and_or, Bool.not_eq_false] at this
    exact this

/-- C3: a second `register` under the same key is a complete no-op — the
state (all stores, both persistence sets, and every observable log) equals
the state after the first call alone, whatever handles and options the
second call passes, even `persist := true`. -/
theorem claimC3_register_idempotent (k : String) (a1 a2 : AnimArg)
    (o1 o2 : AnimationOptions) (s : ManagerState) :
    register k a2 o2 (register k a1 o1 s) = register k a1 o1 s :=
  register_occupied_noop k a2 o2 (register k a1 o1 s)
    (register_occupied_after k a1 o1 s)

/-- C5: `setup` on a key already present in the animation store or the
context store does not invoke the setup function (no context is opened —
the boolean result is `false`) and returns the state completely unchanged,
even when `persist := true` is passed. -/
theorem claimC5_setup_occupied (k : String) (c : Ctx) (o : SetupOptions)
    (s : ManagerState)
    (h : mapHas s.activeAnimations k = true ∨ mapHas s.contexts k = true) :
    setup k c o s = (false, s) := by
  unfold setup
  rcases h with h | h <;> simp [h]

/-- C5 witness: a persistent re-`setup` on an occupied key is skipped. -/
theorem claimC5_setup_occupied_witness :
    setup "hero" { id := 7 } { persist := true }
        { emptyState with
          activeAnimations := [("hero", [{ id := 1, killThrows := false }])] } =
      (false,
        { emptyState with
          activeAnimations := [("hero", [{ id := 1, killThrows := false }])] }) :=
  claimC5_setup_occupied "hero" { id := 7 } { persist := true } _ (Or.inl (by decide))

/-- C6: `scroll` on an occupied trigger key returns `null` and constructs
nothing — the state, including the engine's global registry, is untouched;
on a free key it returns the newly constructed handle and stores it as a
one-element group under the key. -/
theorem claimC6_scroll_duplicate_guard (k : String) (t : Handle) (o : AnimationOptions)
    (s : ManagerState) :
    (mapHas s.scrollTriggers k = true → scroll k t o s = (none, s)) ∧
    (mapHas s.scrollTriggers k = false →
      (scroll k t o s).1 = some t ∧
        mapGet ((scroll k t o s).2).scrollTriggers k = some [t]) := by
  constructor
  · intro h
    unfold scroll
    rw [if_pos h]
  · intro h
    unfold scroll
    rw [if_neg (by simp [h])]
    refine ⟨rfl, ?_⟩
    unfold registerScrollTriggers
    rw [if_pos (by simp; exact h)]
    by_cases hp : o.persist = true
    · simp only [hp, if_true]
      exact mapGet_mapSet_of_not_has _ _ _ h
    · simp only [Bool.not_eq_true] at hp
      simp only [hp, Bool.false_eq_true, if_false]
      exact mapGet_mapSet_of_not_has _ _ _ h

/-- C6 witness: on a store already holding key `a`, `scroll` returns `null`
and changes nothing; on the empty store it returns the new handle and
stores the one-element group. -/
theorem claimC6_scroll_duplicate_guard_witness :
    scroll "a" { id := 9, killThrows := false } { persist := false }
        { emptyState with
          scrollTriggers := [("a", [{ id := 4, killThrows := false }])] } =
      (none,
        { emptyState with
          scrollTriggers := [("a", [{ id := 4, killThrows := false }])] }) ∧
    (scroll "a" { id := 9, killThrows := false } { persist := false } emptyState).1 =
      some { id := 9, killThrows := false } := by
  constructor
  · exact (claimC6_scroll_duplicate_guard "a" { id := 9, killThrows := false }
      { persist := false } _).1 (by decide)
  · exact ((claimC6_scroll_duplicate_guard "a" { id := 9, killThrows := false }
      { persist := false } emptyState).2 (by decide)).1

/-- C7: the before-swap reaction runs `cleanupAll()` exactly when some key
of the animation or context store is outside the animation persistence
set, or some key of the trigger store is outside the trigger persistence
set; with no such key it returns with the state untouched. -/
theorem claimC7_beforeSwap_reaction (s : ManagerState) :
    (((∃ x ∈ mapKeys s.activeAnimations, x ∉ s.persistentAnimations) ∨
        (∃ x ∈ mapKeys s.contexts, x ∉ s.persistentAnimations) ∨
        (∃ x ∈ mapKeys s.scrollTriggers, x ∉ s.persistentScrollTriggers)) →
      beforeSwap s = cleanupAll s) ∧
      (¬((∃ x ∈ mapKeys s.activeAnimations, x ∉ s.persistentAnimations) ∨
          (∃ x ∈ mapKeys s.contexts, x ∉ s.persistentAnimations) ∨
          (∃ x ∈ mapKeys s.scrollTriggers, x ∉ s.persistentScrollTriggers)) →
        beforeSwap s = (true, s)) := by
  have bridge : ∀ (l ps : List String),
      (l.any (fun k => !ps.contains k) = true) ↔ ∃ x ∈ l, x ∉ ps := by
    intro l ps
    rw [List.any_eq_true]
    constructor
    · rintro ⟨x, hx, hp⟩
      exact ⟨x, hx, (contains_eq_false_iff _ _).mp (by simpa using hp)⟩
    · rintro ⟨x, hx, hp⟩
      refine ⟨x, hx, ?_⟩
      simpa using hp
  unfold beforeSwap
  by_cases hc :
      (!((mapKeys s.activeAnimations).any (fun k => !s.persistentAnimations.contains k)) &&
        !((mapKeys s.scrollTriggers).any (fun k => !s.persistentScrollTriggers.contains k)) &&
        !((mapKeys s.contexts).any (fun k => !s.persistentAnimations.contains k))) = true
  · rw [if_pos hc]
    have h3 :
        ((mapKeys s.activeAnimations).any (fun k => !s.persistentAnimations.contains k)) = false ∧
        ((mapKeys s.scrollTriggers).any (fun k => !s.persistentScrollTriggers.contains k)) = false ∧
        ((mapKeys s.contexts).any (fun k => !s.persistentAnimations.contains k)) = false := by
      simpa [Bool.and_eq_true, Bool.not_eq_true', and_assoc] using hc
    constructor
    · intro hex
      exfalso
      rcases hex with h | h | h
      · rw [← bridge _ _] at h
        rw [h3.1] at h
        exact Bool.noConfusion h
      · rw [← bridge _ _] at h
        rw [h3.2.2] at h
        exact Bool.noConfusion h
      · rw [← bridge _ _] at h
        rw [h3.2.1] at h
        exact Bool.noConfusion h
    · intro _
      rfl
  · rw [if_neg hc]
    constructor
    · intro _
      rfl
    · intro hnone
      exfalso
      have h3 :
          ((mapKeys s.activeAnimations).any (fun k => !s.persistentAnimations.contains k)) = true ∨
          ((mapKeys s.scrollTriggers).any (fun k => !s.persistentScrollTriggers.contains k)) = true ∨
          ((mapKeys s.contexts).any (fun k => !s.persistentAnimations.contains k)) = true := by
        by_contra hno
        push_neg at hno
        apply hc
        simp only [Bool.and_eq_true, Bool.not_eq_true']
        exact ⟨⟨by simpa using hno.1, by simpa using hno.2.1⟩, by simpa using hno.2.2⟩
      rcases h3 with h | h | h
      · exact hnone (Or.inl ((bridge _ _).mp h))
      · exact hnone (Or.inr (Or.inr ((bridge _ _).mp h)))
      · exact hnone (Or.inr (Or.inl ((bridge _ _).mp h)))

/-- C7 witness: a lone non-persistent animation key triggers the sweep (and
the key is removed); a state whose only keys are persistent is untouched. -/
theorem claimC7_beforeSwap_reaction_witness :
    beforeSwap { emptyState with
        activeAnimations := [("a", [{ id := 1, killThrows := false }])] } =
      cleanupAll { emptyState with
        activeAnimations := [("a", [{ id := 1, killThrows := false }])] } ∧
    beforeSwap { emptyState with
        activeAnimations := [("a", [{ id := 1, killThrows := false }])]
        persistentAnimations := ["a"] } =
      (true, { emptyState with
        activeAnimations := [("a", [{ id := 1, killThrows := false }])]
        persistentAnimations := ["a"] }) := by
  constructor
  · exact (claimC7_beforeSwap_reaction _).1 (Or.inl ⟨"a", by decide, by decide⟩)
  · refine (claimC7_beforeSwap_reaction _).2 ?_
    intro hex
    rcases hex with ⟨x, hx, hp⟩ | ⟨x, hx, hp⟩ | ⟨x, hx, hp⟩
    · simp only [mapKeys] at hx
      have : x = "a" := by
        simpa using hx
      subst this
      exact hp (by decide)
    · simp [mapKeys, emptyState] at hx
    · simp [mapKeys, emptyState] at hx

theorem foldl_add_length (l : List (String × List Handle)) (acc : Nat) :
    l.foldl (fun total p => total + p.2.length) acc =
      acc + (l.map (fun p => p.2.length)).sum := by
  induction l generalizing acc with
  | nil => simp
  | cons p t ih =>
    simp only [List.foldl_cons, List.map_cons, List.sum_cons]
    rw [ih]
    omega

/-- C9: `getStatus` reports the number of animation-store keys, the total
number of stored trigger handles (sum of the group lengths), and the sum
of the two persistence-set sizes — a key marked in both sets is counted
twice, since the two lists are disjoint only by convention. -/
theorem claimC9_getStatus_accounting (s : ManagerState) :
    (getStatus s).animations = (mapKeys s.activeAnimations).length ∧
      (getStatus s).scrollTriggers = (s.scrollTriggers.map (fun p => p.2.length)).sum ∧
      (getStatus s).persistent =
        s.persistentAnimations.length + s.persistentScrollTriggers.length := by
  refine ⟨?_, ?_, rfl⟩
  · unfold getStatus mapKeys
    simp
  · unfold getStatus
    simp only
    rw [foldl_add_length]
    simp

theorem mapGet_nil (k : String) : mapGet ([] : List (String × α)) k = none := rfl

/-- C2 counterexample: key `a` is persistent (`isPersistent` is true, via
the trigger persistence set), yet `cleanupAll()` kills its animation
handle (id 5 enters the kill log) and removes its animation-store entry,
because the animation sweep consults only the animation persistence set. -/
theorem claimC2_counterexample :
    isPersistent "a"
        { emptyState with
          activeAnimations := [("a", [{ id := 5, killThrows := false }])]
          persistentScrollTriggers := ["a"] } = true ∧
      mapGet ((cleanupAll
        { emptyState with
          activeAnimations := [("a", [{ id := 5, killThrows := false }])]
          persistentScrollTriggers := ["a"] }).2).activeAnimations "a" = none ∧
      5 ∈ ((cleanupAll
        { emptyState with
          activeAnimations := [("a", [{ id := 5, killThrows := false }])]
          persistentScrollTriggers := ["a"] }).2).killedLog := by
  decide

/-- C2 (amended): persistence semantics per store.  `cleanup(k, false)` is
a no-op whenever `isPersistent(k)` (union check).  `cleanupAll()` keeps
`k`'s animation and context entries when `k` is in the **animation**
persistence set, and `k`'s trigger entries when `k` is in the **trigger**
persistence set (a key in only one set loses its entries in the other
store); its handles stay un-killed provided their ids are not shared with
a non-persistent group (nor, for animation handles, with the engine's
global registry).  `cleanup(k, true)` and `forceCleanupAll()` kill the
handles and remove the entries regardless of persistence, provided no
trigger `kill()` throws. -/
theorem claimC2_persistence_exemption (k : String) (s : ManagerState) :
    (isPersistent k s = true → cleanup k false s = (true, s)) ∧
    (s.persistentAnimations.contains k = true →
      mapGet ((cleanupAll s).2).activeAnimations k = mapGet s.activeAnimations k ∧
        mapGet ((cleanupAll s).2).contexts k = mapGet s.contexts k) ∧
    (s.persistentScrollTriggers.contains k = true →
      mapGet ((cleanupAll s).2).scrollTriggers k = mapGet s.scrollTriggers k) ∧
    (∀ i : Nat,
      (∀ p ∈ s.activeAnimations, s.persistentAnimations.contains p.1 = false →
        i ∉ p.2.map (fun x => x.id)) →
      (∀ p ∈ s.scrollTriggers, s.persistentScrollTriggers.contains p.1 = false →
        i ∉ p.2.map (fun x => x.id)) →
      i ∉ s.globalTriggers.map (fun t => t.id) →
      i ∈ ((cleanupAll s).2).killedLog → i ∈ s.killedLog) ∧
    (∀ (ts : List Handle) (i : Nat),
      s.persistentScrollTriggers.contains k = true →
      mapGet s.scrollTriggers k = some ts →
      i ∈ ts.map (fun t => t.id) →
      (∀ p ∈ s.activeAnimations, s.persistentAnimations.contains p.1 = false →
        i ∉ p.2.map (fun x => x.id)) →
      (∀ p ∈ s.scrollTriggers, s.persistentScrollTriggers.contains p.1 = false →
        i ∉ p.2.map (fun x => x.id)) →
      i ∈ ((cleanupAll s).2).killedLog → i ∈ s.killedLog) ∧
    ((∀ ts, mapGet s.scrollTriggers k = some ts → ∀ h ∈ ts, h.killThrows = false) →
      (cleanup k true s).1 = true ∧
        mapGet ((cleanup k true s).2).activeAnimations k = none ∧
        mapGet ((cleanup k true s).2).contexts k = none ∧
        mapGet ((cleanup k true s).2).scrollTriggers k = none ∧
        (∀ hs, mapGet s.activeAnimations k = some hs → ∀ h ∈ hs, h.killThrows = false →
          h.id ∈ ((cleanup k true s).2).killedLog) ∧
        (∀ ts, mapGet s.scrollTriggers k = some ts → ∀ h ∈ ts,
          h.id ∈ ((cleanup k true s).2).killedLog)) ∧
    ((∀ p ∈ s.scrollTriggers, ∀ h ∈ p.2, h.killThrows = false) →
      (∀ t ∈ s.globalTriggers, t.killThrows = false) →
      mapGet ((forceCleanupAll s).2).activeAnimations k = none ∧
        mapGet ((forceCleanupAll s).2).scrollTriggers k = none ∧
        mapGet ((forceCleanupAll s).2).contexts k = none ∧
        (∀ hs, mapGet s.activeAnimations k = some hs → ∀ h ∈ hs, h.killThrows = false →
          h.id ∈ ((forceCleanupAll s).2).killedLog) ∧
        (∀ ts, mapGet s.scrollTriggers k = some ts → ∀ h ∈ ts,
          h.id ∈ ((forceCleanupAll s).2).killedLog)) := by
  refine ⟨cleanup_persistent_noop k s, cleanupAll_persistA_lookup s k,
    cleanupAll_persistT_lookup s k, ?_, ?_, ?_, ?_⟩
  · intro i hsep1 hsep2 hsep3 hkill
    rcases cleanupAll_killed_cases s i hkill with h | ⟨p, hp, hpc, hpi⟩ | ⟨p, hp, hpc, hpi⟩ |
      ⟨⟨t, ht, hti⟩, _⟩
    · exact h
    · exact absurd hpi (hsep1 p hp hpc)
    · exact absurd hpi (hsep2 p hp hpc)
    · exact absurd (List.mem_map.mpr ⟨t, ht, hti⟩) hsep3
  · intro ts i hk hgk hi hsep1 hsep2 hkill
    rcases cleanupAll_killed_cases s i hkill with h | ⟨p, hp, hpc, hpi⟩ | ⟨p, hp, hpc, hpi⟩ |
      ⟨_, hcond⟩
    · exact h
    · exact absurd hpi (hsep1 p hp hpc)
    · exact absurd hpi (hsep2 p hp hpc)
    · rcases hcond with hce | hcf
      · rw [List.isEmpty_iff.mp hce] at hk
        exact Bool.noConfusion hk
      · have hmem : i ∈ persistentTriggerIds s :=
          mem_persistentTriggerIds s k ts i (List.elem_iff.mp hk) hgk hi
        have hcont : (persistentTriggerIds s).contains i = true := List.elem_iff.mpr hmem
        rw [hcf] at hcont
        exact Bool.noConfusion hcont
  · intro hnt
    obtain ⟨h1, h2, h3, h4, _, _, h7, h8⟩ := cleanup_force_spec k s hnt
    exact ⟨h1, h2, h3, h4, h7, h8⟩
  · intro hst hg
    obtain ⟨_, ha, hstq, hc, _, _, _, _, hka, hkt, _⟩ := forceCleanupAll_spec s hst hg
    refine ⟨by rw [ha]; exact mapGet_nil k, by rw [hstq]; exact mapGet_nil k,
      by rw [hc]; exact mapGet_nil k, ?_, ?_⟩
    · intro hs hgk h hh ht
      exact hka (k, hs) (mapGet_mem _ _ _ hgk) h hh ht
    · intro ts hgk h hh
      exact hkt (k, ts) (mapGet_mem _ _ _ hgk) h hh

/-- C2 witness: a persistent animation key survives non-forced cleanup
unchanged, and forced cleanup of the same key completes. -/
theorem claimC2_persistence_exemption_witness :
    cleanup "n" false
        { emptyState with
          activeAnimations := [("n", [{ id := 1, killThrows := false }])]
          persistentAnimations := ["n"] } =
      (true,
        { emptyState with
          activeAnimations := [("n", [{ id := 1, killThrows := false }])]
          persistentAnimations := ["n"] }) ∧
      (cleanup "n" true
        { emptyState with
          activeAnimations := [("n", [{ id := 1, killThrows := false }])]
          persistentAnimations := ["n"] }).1 = true := by
  constructor
  · exact (claimC2_persistence_exemption "n" _).1 (by decide)
  · refine ((claimC2_persistence_exemption "n" _).2.2.2.2.2.1 ?_).1
    intro ts hts
    rw [show mapGet ({ emptyState with
        activeAnimations := [("n", [{ id := 1, killThrows := false }])]
        persistentAnimations := ["n"] } : ManagerState).scrollTriggers "n" = none from
      by decide] at hts
    exact Option.noConfusion hts

theorem registerScrollTriggers_ctx_anims (k : String) (ts : List Handle)
    (o : AnimationOptions) (s : ManagerState) :
    (registerScrollTriggers k ts o s).contexts = s.contexts ∧
      (registerScrollTriggers k ts o s).activeAnimations = s.activeAnimations := by
  unfold registerScrollTriggers
  by_cases hg : (!mapHas s.scrollTriggers k) = true
  · rw [if_pos hg]
    by_cases hp : o.persist = true
    · simp only [hp, if_true]
      exact ⟨by trivial, by trivial⟩
    · simp only [Bool.not_eq_true] at hp
      simp only [hp, Bool.false_eq_true, if_false]
      exact ⟨by trivial, by trivial⟩
  · rw [if_neg hg]
    exact ⟨rfl, rfl⟩

/-- Every key of the context store also occupies the animation store (the
placeholder entry written by `setup`). -/
def CtxSubInv (s : ManagerState) : Prop :=
  ∀ x, mapHas s.contexts x = true → mapHas s.activeAnimations x = true

/-- C8: the invariant "every context-store key is also an animation-store
key" holds initially and is preserved by every public operation and
adapter reaction, on every branch; consequently a key with a context —
the state `setup` leaves behind until a cleanup removes it — always reads
as active. -/
theorem claimC8_context_implies_active :
    CtxSubInv emptyState ∧
      (∀ k a o s, CtxSubInv s → CtxSubInv (register k a o s)) ∧
      (∀ k ts o s, CtxSubInv s → CtxSubInv (registerScrollTriggers k ts o s)) ∧
      (∀ k a o s, CtxSubInv s → CtxSubInv ((animate k a o s).2)) ∧
      (∀ k c o s, CtxSubInv s → CtxSubInv ((setup k c o s).2)) ∧
      (∀ k t o s, CtxSubInv s → CtxSubInv ((timeline k t o s).2)) ∧
      (∀ k t o s, CtxSubInv s → CtxSubInv ((scroll k t o s).2)) ∧
      (∀ k f s, CtxSubInv s → CtxSubInv ((cleanup k f s).2)) ∧
      (∀ s, CtxSubInv s → CtxSubInv ((cleanupAll s).2)) ∧
      (∀ s, CtxSubInv ((forceCleanupAll s).2)) ∧
      (∀ k s, CtxSubInv s → CtxSubInv (removePersistence k s)) ∧
      (∀ ks s, CtxSubInv s → CtxSubInv (refresh ks s)) ∧
      (∀ s, CtxSubInv s → CtxSubInv ((beforeSwap s).2)) ∧
      (∀ k s, mapHas s.contexts k = true → isActive k s = true) := by
  have hreg : ∀ k a o s, CtxSubInv s → CtxSubInv (register k a o s) := by
    intro k a o s hinv x hx
    unfold register at hx ⊢
    by_cases hg : (!mapHas s.activeAnimations k && !mapHas s.contexts k) = true
    · rw [if_pos hg] at hx ⊢
      by_cases hp : o.persist = true
      · simp only [hp, if_true] at hx ⊢
        exact mapHas_mapSet_mono _ _ _ _ (hinv x hx)
      · simp only [Bool.not_eq_true] at hp
        simp only [hp, Bool.false_eq_true, if_false] at hx ⊢
        exact mapHas_mapSet_mono _ _ _ _ (hinv x hx)
    · rw [if_neg hg] at hx ⊢
      exact hinv x hx
  have hrst : ∀ k ts o s, CtxSubInv s → CtxSubInv (registerScrollTriggers k ts o s) := by
    intro k ts o s hinv x hx
    obtain ⟨hcq, haq⟩ := registerScrollTriggers_ctx_anims k ts o s
    rw [hcq] at hx
    rw [haq]
    exact hinv x hx
  have hsetup : ∀ k c o s, CtxSubInv s → CtxSubInv ((setup k c o s).2) := by
    intro k c o s hinv x hx
    unfold setup at hx ⊢
    by_cases hg : (!mapHas s.activeAnimations k && !mapHas s.contexts k) = true
    · rw [if_pos hg] at hx ⊢
      by_cases hp : o.persist = true
      · simp only [hp, if_true] at hx ⊢
        rcases mapHas_mapSet_cases _ _ _ _ hx with rfl | hx'
        · exact mapHas_mapSet_self _ _ _
        · exact mapHas_mapSet_mono _ _ _ _ (hinv x hx')
      · simp only [Bool.not_eq_true] at hp
        simp only [hp, Bool.false_eq_true, if_false] at hx ⊢
        rcases mapHas_mapSet_cases _ _ _ _ hx with rfl | hx'
        · exact mapHas_mapSet_self _ _ _
        · exact mapHas_mapSet_mono _ _ _ _ (hinv x hx')
    · rw [if_neg hg] at hx ⊢
      exact hinv x hx
  have hscroll : ∀ k t o s, CtxSubInv s → CtxSubInv ((scroll k t o s).2) := by
    intro k t o s hinv x hx
    unfold scroll at hx ⊢
    by_cases hg : mapHas s.scrollTriggers k = true
    · rw [if_pos hg] at hx ⊢
      exact hinv x hx
    · rw [if_neg hg] at hx ⊢
      obtain ⟨hcq, haq⟩ := registerScrollTriggers_ctx_anims k [t] o
        { s with globalTriggers := s.globalTriggers ++ [t] }
      rw [hcq] at hx
      rw [haq]
      exact hinv x hx
  have hall : ∀ s, CtxSubInv s → CtxSubInv ((cleanupAll s).2) := by
    intro s hinv x hx
    exact cleanupAll_preserves_ctxSub s hinv x hx
  refine ⟨?_, hreg, hrst, fun k a o s hi => hreg k a o s hi, hsetup,
    fun k t o s hi => hreg k (.single t) o s hi, hscroll,
    fun k f s hi x hx => cleanup_preserves_ctxSub k f s hi x hx, hall, ?_, ?_, ?_, ?_, ?_⟩
  · intro x hx
    simp [emptyState, mapHas] at hx
  · intro s x hx
    rw [(forceCleanupAll_stores s).1] at hx
    simp [mapHas] at hx
  · intro k s hinv x hx
    exact hinv x hx
  · intro ks s hinv x hx
    obtain ⟨ha, _, hcq, _, _, _, _, _⟩ := refresh_fields ks s
    rw [hcq] at hx
    rw [ha]
    exact hinv x hx
  · intro s hinv x hx
    unfold beforeSwap at hx ⊢
    by_cases hc :
        (!((mapKeys s.activeAnimations).any (fun k => !s.persistentAnimations.contains k)) &&
          !((mapKeys s.scrollTriggers).any (fun k => !s.persistentScrollTriggers.contains k)) &&
          !((mapKeys s.contexts).any (fun k => !s.persistentAnimations.contains k))) = true
    · rw [if_pos hc] at hx ⊢
      exact hinv x hx
    · rw [if_neg hc] at hx ⊢
      exact cleanupAll_preserves_ctxSub s hinv x hx
  · intro k s h
    unfold isActive
    rw [h]
    simp

/-- C8 witness: a state where `setup` has run for key `s1` (context plus
placeholder animation entry) satisfies the invariant, and the invariant
is preserved by a subsequent `cleanupAll`; the context key reads as
active. -/
theorem claimC8_context_implies_active_witness :
    CtxSubInv ((setup "s1" { id := 1 } { persist := false } emptyState).2) ∧
      isActive "s1" ((setup "s1" { id := 1 } { persist := false } emptyState).2) = true := by
  constructor
  · refine claimC8_context_implies_active.2.2.2.2.1 "s1" { id := 1 }
      { persist := false } emptyState ?_
    intro x hx
    simp [emptyState, mapHas] at hx
  · exact claimC8_context_implies_active.2.2.2.2.2.2.2.2.2.2.2.2.2 "s1" _ (by decide)

/-- Every stored animation group and trigger group is a non-empty list. -/
def NEStores (s : ManagerState) : Prop :=
  (∀ p ∈ s.activeAnimations, p.2 ≠ ([] : List Handle)) ∧
    (∀ p ∈ s.scrollTriggers, p.2 ≠ ([] : List Handle))

/-- C10 counterexample: `register` called with an empty array stores an
empty handle list — the stores are *not* unconditionally non-empty "no
matter what arguments callers pass". -/
theorem claimC10_counterexample :
    ¬ NEStores (register "a" (AnimArg.many []) { persist := false } emptyState) := by
  intro h
  exact h.1 ("a", []) (by decide) rfl

/-- C10 (amended): every stored handle list stays non-empty provided the
list arguments passed to `register`/`animate` and `registerScrollTriggers`
are themselves non-empty (a single handle is wrapped into a one-element
list; `setup`, `timeline` and `scroll` always store one-element lists);
every other operation only deletes whole groups and so preserves the
invariant unconditionally. -/
theorem claimC10_nonempty_groups :
    NEStores emptyState ∧
      (∀ k a o s, NEStores s → a.toList ≠ [] → NEStores (register k a o s)) ∧
      (∀ k ts o s, NEStores s → ts ≠ [] → NEStores (registerScrollTriggers k ts o s)) ∧
      (∀ k a o s, NEStores s → a.toList ≠ [] → NEStores ((animate k a o s).2)) ∧
      (∀ k c o s, NEStores s → NEStores ((setup k c o s).2)) ∧
      (∀ k t o s, NEStores s → NEStores ((timeline k t o s).2)) ∧
      (∀ k t o s, NEStores s → NEStores ((scroll k t o s).2)) ∧
      (∀ k f s, NEStores s → NEStores ((cleanup k f s).2)) ∧
      (∀ s, NEStores s → NEStores ((cleanupAll s).2)) ∧
      (∀ s, NEStores s → NEStores ((forceCleanupAll s).2)) ∧
      (∀ k s, NEStores s → NEStores (removePersistence k s)) ∧
      (∀ ks s, NEStores s → NEStores (refresh ks s)) ∧
      (∀ s, NEStores s → NEStores ((beforeSwap s).2)) := by
  have hreg : ∀ k a o s, NEStores s → a.toList ≠ [] → NEStores (register k a o s) := by
    intro k a o s hinv hne
    unfold register
    by_cases hg : (!mapHas s.activeAnimations k && !mapHas s.contexts k) = true
    · rw [if_pos hg]
      have hcore : ∀ p, p ∈ mapSet s.activeAnimations k a.toList → p.2 ≠ [] := by
        intro p hp
        rcases mem_mapSet _ _ _ _ hp with hp' | rfl
        · exact hinv.1 p hp'
        · exact hne
      by_cases hp : o.persist = true
      · simp only [hp, if_true]
        exact ⟨fun p hp' => hcore p hp', hinv.2⟩
      · simp only [Bool.not_eq_true] at hp
        simp only [hp, Bool.false_eq_true, if_false]
        exact ⟨fun p hp' => hcore p hp', hinv.2⟩
    · rw [if_neg hg]
      exact hinv
  have hrst : ∀ k ts o s, NEStores s → ts ≠ [] →
      NEStores (registerScrollTriggers k ts o s) := by
    intro k ts o s hinv hne
    unfold registerScrollTriggers
    by_cases hg : (!mapHas s.scrollTriggers k) = true
    · rw [if_pos hg]
      have hcore : ∀ p, p ∈ mapSet s.scrollTriggers k ts → p.2 ≠ [] := by
        intro p hp
        rcases mem_mapSet _ _ _ _ hp with hp' | rfl
        · exact hinv.2 p hp'
        · exact hne
      by_cases hp : o.persist = true
      · simp only [hp, if_true]
        exact ⟨hinv.1, fun p hp' => hcore p hp'⟩
      · simp only [Bool.not_eq_true] at hp
        simp only [hp, Bool.false_eq_true, if_false]
        exact ⟨hinv.1, fun p hp' => hcore p hp'⟩
    · rw [if_neg hg]
      exact hinv
  have hsetup : ∀ k c o s, NEStores s → NEStores ((setup k c o s).2) := by
    intro k c o s hinv
    unfold setup
    by_cases hg : (!mapHas s.activeAnimations k && !mapHas s.contexts k) = true
    · rw [if_pos hg]
      have hcore : ∀ p, p ∈ mapSet s.activeAnimations k [placeholderHandle] → p.2 ≠ [] := by
        intro p hp
        rcases mem_mapSet _ _ _ _ hp with hp' | rfl
        · exact hinv.1 p hp'
        · simp
      by_cases hp : o.persist = true
      · simp only [hp, if_true]
        exact ⟨fun p hp' => hcore p hp', hinv.2⟩
      · simp only [Bool.not_eq_true] at hp
        simp only [hp, Bool.false_eq_true, if_false]
        exact ⟨fun p hp' => hcore p hp', hinv.2⟩
    · rw [if_neg hg]
      exact hinv
  have hscroll : ∀ k t o s, NEStores s → NEStores ((scroll k t o s).2) := by
    intro k t o s hinv
    unfold scroll
    by_cases hg : mapHas s.scrollTriggers k = true
    · rw [if_pos hg]
      exact hinv
    · rw [if_neg hg]
      exact hrst k [t] o { s with globalTriggers := s.globalTriggers ++ [t] }
        ⟨hinv.1, hinv.2⟩ (by simp)
  refine ⟨⟨fun p hp => absurd hp (by simp [emptyState]),
      fun p hp => absurd hp (by simp [emptyState])⟩,
    hreg, hrst, fun k a o s hi hne => hreg k a o s hi hne, hsetup,
    fun k t o s hi => hreg k (.single t) o s hi (by simp [AnimArg.toList]), hscroll,
    ?_, ?_, ?_, ?_, ?_, ?_⟩
  · intro k f s hinv
    obtain ⟨hma, hmst⟩ := cleanup_mem k f s
    exact ⟨fun p hp => hinv.1 p (hma p hp), fun p hp => hinv.2 p (hmst p hp)⟩
  · intro s hinv
    obtain ⟨hma, hmst⟩ := cleanupAll_mem s
    exact ⟨fun p hp => hinv.1 p (hma p hp), fun p hp => hinv.2 p (hmst p hp)⟩
  · intro s hinv
    obtain ⟨_, hfa, hfst⟩ := forceCleanupAll_stores s
    constructor
    · intro p hp
      rw [hfa] at hp
      exact absurd hp (List.not_mem_nil p)
    · intro p hp
      exact hinv.2 p (hfst p hp)
  · intro k s hinv
    exact ⟨hinv.1, hinv.2⟩
  · intro ks s hinv
    obtain ⟨ha, hst, _, _, _, _, _, _⟩ := refresh_fields ks s
    constructor
    · intro p hp
      rw [ha] at hp
      exact hinv.1 p hp
    · intro p hp
      rw [hst] at hp
      exact hinv.2 p hp
  · intro s hinv
    unfold beforeSwap
    by_cases hc :
        (!((mapKeys s.activeAnimations).any (fun k => !s.persistentAnimations.contains k)) &&
          !((mapKeys s.scrollTriggers).any (fun k => !s.persistentScrollTriggers.contains k)) &&
          !((mapKeys s.contexts).any (fun k => !s.persistentAnimations.contains k))) = true
    · rw [if_pos hc]
      exact hinv
    · rw [if_neg hc]
      obtain ⟨hma, hmst⟩ := cleanupAll_mem s
      exact ⟨fun p hp => hinv.1 p (hma p hp), fun p hp => hinv.2 p (hmst p hp)⟩

/-- C10 witness: registering a single handle and a one-element trigger
list on the empty state keeps all stored groups non-empty. -/
theorem claimC10_nonempty_groups_witness :
    NEStores (registerScrollTriggers "t" [{ id := 2, killThrows := false }]
      { persist := false }
      (register "a" (AnimArg.single { id := 1, killThrows := false })
        { persist := false } emptyState)) := by
  refine claimC10_nonempty_groups.2.2.1 "t" _ _ _ ?_ (by simp)
  refine claimC10_nonempty_groups.2.1 "a" _ _ _ ?_ (by simp [AnimArg.toList])
  exact claimC10_nonempty_groups.1
